import Mathlib

/-!
# Readable foreground colour selection of the annotation window

Embedding of the colour arithmetic of `libview/ev-annotation-window.c`:
`get_srgb`, `get_relative_luminance`, `get_contrast_level`, `get_most_readable_color` and
`get_best_foreground_color`.

The C code computes on `double`.  A value of that type is modelled by `Fp`: NaN, an infinity,
or a finite rational.  Every arithmetic operation computes the exact rational result and rounds
it to the nearest representable value, ties to even, with gradual underflow and overflow to
infinity (IEEE-754 binary64, each operation rounded once, no fused multiply-add).  The two
zeros are one value, as they are for the comparison operators of C; the only division of this
program whose divisor can be zero divides by the sum `fmin (..) + 0.05`, which is `+0` when it
is zero.

`powf` belongs to the C library, not to this program: it is a parameter of the embedding, a
function on single precision values, and what a statement needs of it is a hypothesis
(`PowfOne`, `PowfUnit`, `PowfHalf`, `PowfMono`, `PowfCross`).  `powfSquare` and `powfIdeal`,
the mathematical power, are functions that meet such hypotheses.  `gdk_rgba_parse` and
`gdk_rgba_copy` belong to GDK: the two parsed colours are the constants `black` and `white`.
-/

namespace Evince

/-- A floating point value: not-a-number, an infinity with its sign, or a finite number. -/
inductive Fp where
  | nan : Fp
  | inf (neg : Bool) : Fp
  | fin (q : ℚ) : Fp
  deriving DecidableEq

/-- Nearest integer, ties to the even one. -/
def roundHalfEven (x : ℚ) : ℤ :=
  if x - ⌊x⌋ < 1 / 2 then ⌊x⌋
  else if 1 / 2 < x - ⌊x⌋ then ⌊x⌋ + 1
  else if ⌊x⌋ % 2 = 0 then ⌊x⌋ else ⌊x⌋ + 1

/-- Exponent of the unit in the last place of a non-negative `q`, for precision `p` and
least normal exponent `emin`. -/
def ulpExp (p : ℕ) (emin : ℤ) (q : ℚ) : ℤ :=
  max (Int.log 2 q) emin - ((p : ℤ) - 1)

/-- Rounding of a non-negative rational to precision `p`, exponent unbounded above. -/
def roundMag (p : ℕ) (emin : ℤ) (q : ℚ) : ℚ :=
  (roundHalfEven (q / 2 ^ ulpExp p emin q) : ℚ) * 2 ^ ulpExp p emin q

/-- Rounding of a rational to precision `p`, exponent unbounded above. -/
def roundQ (p : ℕ) (emin : ℤ) (q : ℚ) : ℚ :=
  if 0 ≤ q then roundMag p emin q else -roundMag p emin (-q)

/-- Rounding to the format of precision `p` and exponent range `emin .. emax`. -/
def round (p : ℕ) (emin emax : ℤ) (q : ℚ) : Fp :=
  if (2 : ℚ) ^ (emax + 1) ≤ |roundQ p emin q| then Fp.inf (decide (q < 0))
  else Fp.fin (roundQ p emin q)

/-- Rounding of a rational to binary64, unbounded above. -/
def rnd (q : ℚ) : ℚ := roundQ 53 (-1022) q

/-- Rounding to `double`; also the value of a decimal literal of type `double`. -/
def dbl (q : ℚ) : Fp := round 53 (-1022) 1023 q

/-- Rounding to `float`. -/
def flt (q : ℚ) : Fp := round 24 (-126) 127 q

/-- Conversion `(float) x` of a `double`, as at the arguments of `powf`. -/
def toFloat : Fp → Fp
  | Fp.fin q => flt q
  | x => x

/-- Addition of two `double`. -/
def fadd : Fp → Fp → Fp
  | Fp.fin a, Fp.fin b => dbl (a + b)
  | Fp.fin _, Fp.inf n => Fp.inf n
  | Fp.inf n, Fp.fin _ => Fp.inf n
  | Fp.inf n, Fp.inf m => if n = m then Fp.inf n else Fp.nan
  | _, _ => Fp.nan

/-- Multiplication of two `double`. -/
def fmul : Fp → Fp → Fp
  | Fp.fin a, Fp.fin b => dbl (a * b)
  | Fp.fin a, Fp.inf n => if a = 0 then Fp.nan else Fp.inf (xor (decide (a < 0)) n)
  | Fp.inf n, Fp.fin b => if b = 0 then Fp.nan else Fp.inf (xor n (decide (b < 0)))
  | Fp.inf n, Fp.inf m => Fp.inf (xor n m)
  | _, _ => Fp.nan

/-- Division of two `double`; a zero divisor is `+0`. -/
def fdiv : Fp → Fp → Fp
  | Fp.fin a, Fp.fin b =>
      if b = 0 then (if a = 0 then Fp.nan else Fp.inf (decide (a < 0))) else dbl (a / b)
  | Fp.fin _, Fp.inf _ => Fp.fin 0
  | Fp.inf n, Fp.fin b => Fp.inf (xor n (decide (b < 0)))
  | _, _ => Fp.nan

/-- The comparison `x <= y` of C. -/
def fle : Fp → Fp → Bool
  | Fp.fin a, Fp.fin b => decide (a ≤ b)
  | Fp.fin _, Fp.inf n => !n
  | Fp.inf n, Fp.fin _ => n
  | Fp.inf n, Fp.inf m => n || !m
  | _, _ => false

/-- The comparison `x > y` of C. -/
def fgt : Fp → Fp → Bool
  | Fp.fin a, Fp.fin b => decide (b < a)
  | Fp.fin _, Fp.inf n => n
  | Fp.inf n, Fp.fin _ => !n
  | Fp.inf n, Fp.inf m => !n && m
  | _, _ => false

/-- The function `fmax` of C: the larger argument, a NaN argument being passed over. -/
def fmax : Fp → Fp → Fp
  | Fp.nan, y => y
  | x, Fp.nan => x
  | Fp.fin a, Fp.fin b => Fp.fin (max a b)
  | Fp.fin a, Fp.inf n => if n then Fp.fin a else Fp.inf false
  | Fp.inf n, Fp.fin b => if n then Fp.fin b else Fp.inf false
  | Fp.inf n, Fp.inf m => Fp.inf (n && m)

/-- The function `fmin` of C: the smaller argument, a NaN argument being passed over. -/
def fmin : Fp → Fp → Fp
  | Fp.nan, y => y
  | x, Fp.nan => x
  | Fp.fin a, Fp.fin b => Fp.fin (min a b)
  | Fp.fin a, Fp.inf n => if n then Fp.inf true else Fp.fin a
  | Fp.inf n, Fp.fin b => if n then Fp.inf true else Fp.fin b
  | Fp.inf n, Fp.inf m => Fp.inf (n || m)

/-- The colour record of GDK: four `double` fields. -/
structure GdkRGBA where
  red : Fp
  green : Fp
  blue : Fp
  alpha : Fp
  deriving DecidableEq

/-- Result of `gdk_rgba_parse (&black, "#000000")`. -/
def black : GdkRGBA := ⟨Fp.fin 0, Fp.fin 0, Fp.fin 0, Fp.fin 1⟩

/-- Result of `gdk_rgba_parse (&white, "#FFFFFF")`. -/
def white : GdkRGBA := ⟨Fp.fin 1, Fp.fin 1, Fp.fin 1, Fp.fin 1⟩

/-- Embedding of `get_srgb`; `powf` is applied to the `float` conversions of its arguments and
its `float` result converts to `double` unchanged. -/
def get_srgb (powf : Fp → Fp → Fp) (color_component : Fp) : Fp :=
  if fle color_component (dbl (3928 / 100000)) then
    fdiv color_component (dbl (1292 / 100))
  else
    powf (toFloat (fdiv (fadd color_component (dbl (55 / 1000))) (dbl (1055 / 1000))))
      (toFloat (dbl (24 / 10)))

/-- Embedding of `get_relative_luminance`: the red, then the blue, then the green term. -/
def get_relative_luminance (powf : Fp → Fp → Fp) (color : GdkRGBA) : Fp :=
  fadd
    (fadd (fmul (get_srgb powf color.red) (dbl (2126 / 10000)))
      (fmul (get_srgb powf color.blue) (dbl (722 / 10000))))
    (fmul (get_srgb powf color.green) (dbl (7152 / 10000)))

/-- Embedding of `get_contrast_level`. -/
def get_contrast_level (powf : Fp → Fp → Fp) (bg_color fg_color : GdkRGBA) : Fp :=
  fdiv
    (fadd (fmax (get_relative_luminance powf bg_color) (get_relative_luminance powf fg_color))
      (dbl (5 / 100)))
    (fadd (fmin (get_relative_luminance powf bg_color) (get_relative_luminance powf fg_color))
      (dbl (5 / 100)))

/-- Embedding of `get_most_readable_color`. -/
def get_most_readable_color (powf : Fp → Fp → Fp) (bg_color first_color second_color : GdkRGBA) :
    GdkRGBA :=
  if fgt (get_contrast_level powf bg_color first_color)
      (get_contrast_level powf bg_color second_color) then first_color
  else second_color

/-- Embedding of `get_best_foreground_color`; `gdk_rgba_copy` copies the record. -/
def get_best_foreground_color (powf : Fp → Fp → Fp) (bg_color : GdkRGBA) : GdkRGBA :=
  get_most_readable_color powf bg_color black white

/-- The reference of the specification for the relative luminance:
`0.2126 * linearize(red) + 0.7152 * linearize(green) + 0.0722 * linearize(blue)`, evaluated
in `double` in the order written, with `get_srgb` as `linearize`. -/
def relativeLuminance_spec (powf : Fp → Fp → Fp) (color : GdkRGBA) : Fp :=
  fadd
    (fadd (fmul (dbl (2126 / 10000)) (get_srgb powf color.red))
      (fmul (dbl (7152 / 10000)) (get_srgb powf color.green)))
    (fmul (dbl (722 / 10000)) (get_srgb powf color.blue))

/-- A finite value in the interval [0, 1]. -/
def inUnit : Fp → Bool
  | Fp.fin q => decide (0 ≤ q) && decide (q ≤ 1)
  | _ => false

/-- A colour whose red, green and blue channels lie in [0, 1]. -/
def normalized (c : GdkRGBA) : Bool :=
  inUnit c.red && inUnit c.green && inUnit c.blue

/-- Assumption on the C library: `powf (1, 2.4)` is 1 (C99 F.9.4.4, `pow (+1, y)` is 1 for
every `y`). -/
def PowfOne (powf : Fp → Fp → Fp) : Prop :=
  powf (Fp.fin 1) (toFloat (dbl (24 / 10))) = Fp.fin 1

/-- Assumption on the C library: for a `float` base in (0, 1] the result of
`powf (base, 2.4)` is finite and lies in [0, 1]. -/
def PowfUnit (powf : Fp → Fp → Fp) : Prop :=
  ∀ x : ℚ, flt x = Fp.fin x → 0 < x → x ≤ 1 →
    inUnit (powf (Fp.fin x) (toFloat (dbl (24 / 10)))) = true

/-- A function meeting the assumptions made on `powf`, to instantiate them: the square of the
base in single precision. -/
def powfSquare : Fp → Fp → Fp
  | Fp.fin x, _ => flt (x * x)
  | x, _ => x

/-- The mid-gray colour (0.5, 0.5, 0.5), alpha 1. -/
def gray : GdkRGBA := ⟨Fp.fin (1 / 2), Fp.fin (1 / 2), Fp.fin (1 / 2), Fp.fin 1⟩

/-- Assumption on the C library: for a `float` base in [1/2, 1] the result of
`powf (base, 2.4)` is finite and lies in [3/16, 1] (the power 2.4 of 1/2 is 0.1894...). -/
def PowfHalf (powf : Fp → Fp → Fp) : Prop :=
  ∀ x : ℚ, flt x = Fp.fin x → 1 / 2 ≤ x → x ≤ 1 →
    ∃ r, powf (Fp.fin x) (toFloat (dbl (24 / 10))) = Fp.fin r ∧ 3 / 16 ≤ r ∧ r ≤ 1

/-- Search, bit by bit, for the floor of the fifth root of `n`: the bits below `2 ^ i` are
still to be decided, `r` holds the decided ones. -/
def root5Aux (n : ℕ) : ℕ → ℕ → ℕ
  | 0, r => r
  | i + 1, r => root5Aux n i (if (r + 2 ^ i) ^ 5 ≤ n then r + 2 ^ i else r)

/-- Floor of the fifth root of `n`. -/
def root5 (n : ℕ) : ℕ := root5Aux n (Nat.log2 n / 5 + 1) 0

/-- The mathematical power in the place of `powf`, for the exponent 2.4 = 12/5 of this
program: the fifth root of the twelfth power of the base, truncated to a multiple of 2^-160 and
rounded to single precision.  The second argument is not consulted. -/
def powfIdeal : Fp → Fp → Fp
  | Fp.fin x, _ =>
      if 0 ≤ x then flt ((root5 ⌊x ^ 12 * (2 ^ 160) ^ 5⌋₊ : ℚ) / 2 ^ 160) else Fp.nan
  | Fp.inf _, _ => Fp.inf false
  | Fp.nan, _ => Fp.nan

/-- Assumption on the C library: on `float` bases in (0, 1], `powf (base, 2.4)` does not
decrease when the base increases. -/
def PowfMono (powf : Fp → Fp → Fp) : Prop :=
  ∀ x y : ℚ, flt x = Fp.fin x → flt y = Fp.fin y → 0 < x → x ≤ y → y ≤ 1 →
    fle (powf (Fp.fin x) (toFloat (dbl (24 / 10)))) (powf (Fp.fin y) (toFloat (dbl (24 / 10))))
      = true

/-- Assumption on the C library: at the `float` base of the channel 0.03929, that is
0.0893744, the result of `powf (base, 2.4)` is at least 0.03928 / 12.92 = 0.00304025, the
largest value of the linear branch (the power is 0.00304027). -/
def PowfCross (powf : Fp → Fp → Fp) : Prop :=
  fle (fdiv (dbl (3928 / 100000)) (dbl (1292 / 100)))
    (powf (toFloat (fdiv (fadd (dbl (3929 / 100000)) (dbl (55 / 1000))) (dbl (1055 / 1000))))
      (toFloat (dbl (24 / 10)))) = true

/-- Two channel values in increasing order, except a pair astride the threshold of `get_srgb`
whose larger value is below 0.03929: a first value at most 0.03928 with a second one above
0.03928 and below 0.03929. -/
def outsideDip (x y : Fp) : Bool :=
  fle x y &&
    !(fle x (dbl (3928 / 100000)) && !fle y (dbl (3928 / 100000)) &&
      !fle (dbl (3929 / 100000)) y)

/-- Every channel of the first colour is at most that of the second, outside the exception
of `outsideDip`. -/
def channelsUp (c d : GdkRGBA) : Bool :=
  outsideDip c.red d.red && outsideDip c.green d.green && outsideDip c.blue d.blue

/-! ## Rounding -/

theorem floor_le_roundHalfEven (x : ℚ) : ⌊x⌋ ≤ roundHalfEven x := by
  unfold roundHalfEven
  split_ifs <;> omega

theorem roundHalfEven_le_floor_add_one (x : ℚ) : roundHalfEven x ≤ ⌊x⌋ + 1 := by
  unfold roundHalfEven
  split_ifs <;> omega

theorem roundHalfEven_intCast (n : ℤ) : roundHalfEven (n : ℚ) = n := by
  unfold roundHalfEven
  simp

theorem roundHalfEven_mono {x y : ℚ} (h : x ≤ y) : roundHalfEven x ≤ roundHalfEven y := by
  rcases lt_or_eq_of_le (Int.floor_mono h) with hlt | heq
  · calc roundHalfEven x ≤ ⌊x⌋ + 1 := roundHalfEven_le_floor_add_one x
      _ ≤ ⌊y⌋ := hlt
      _ ≤ roundHalfEven y := floor_le_roundHalfEven y
  · unfold roundHalfEven
    rw [← heq]
    split_ifs <;> first | omega | (exfalso; linarith)

theorem le_roundHalfEven {x : ℚ} {n : ℤ} (h : (n : ℚ) ≤ x) : n ≤ roundHalfEven x := by
  have := roundHalfEven_mono h
  rwa [roundHalfEven_intCast] at this

theorem roundHalfEven_le {x : ℚ} {n : ℤ} (h : x ≤ (n : ℚ)) : roundHalfEven x ≤ n := by
  have := roundHalfEven_mono h
  rwa [roundHalfEven_intCast] at this

theorem abs_roundHalfEven_sub_le (x : ℚ) : |(roundHalfEven x : ℚ) - x| ≤ 1 / 2 := by
  have h1 := Int.floor_le x
  have h2 := Int.lt_floor_add_one x
  unfold roundHalfEven
  rw [abs_le]
  split_ifs <;> push_cast <;> constructor <;> linarith

theorem roundHalfEven_eq_of_abs_lt {x : ℚ} {m : ℤ} (h : |x - m| < 1 / 2) :
    roundHalfEven x = m := by
  have h3 := abs_roundHalfEven_sub_le x
  rw [abs_lt] at h
  rw [abs_le] at h3
  have h4 : ((roundHalfEven x - m : ℤ) : ℚ) < 1 := by push_cast; linarith
  have h5 : (-1 : ℚ) < ((roundHalfEven x - m : ℤ) : ℚ) := by push_cast; linarith
  have h6 : roundHalfEven x - m < 1 := by exact_mod_cast h4
  have h7 : -1 < roundHalfEven x - m := by exact_mod_cast h5
  omega

theorem roundHalfEven_eq_of_tie {x : ℚ} {m : ℤ} (h : |x - m| = 1 / 2) (hm : m % 2 = 0) :
    roundHalfEven x = m := by
  rcases abs_eq (by norm_num : (0 : ℚ) ≤ 1 / 2) |>.mp h with h1 | h1
  · have hx : x = (m : ℚ) + 1 / 2 := by linarith
    have hf : ⌊x⌋ = m := by
      rw [Int.floor_eq_iff]; constructor <;> linarith
    unfold roundHalfEven
    rw [hf]
    have e1 : x - (m : ℚ) = 1 / 2 := by linarith
    rw [e1]
    simp [hm]
  · have hx : x = (m : ℚ) - 1 / 2 := by linarith
    have hf : ⌊x⌋ = m - 1 := by
      rw [Int.floor_eq_iff]; push_cast; constructor <;> linarith
    unfold roundHalfEven
    rw [hf]
    have e1 : x - ((m - 1 : ℤ) : ℚ) = 1 / 2 := by push_cast; linarith
    rw [e1]
    have hodd : (m - 1) % 2 ≠ 0 := by omega
    simp [hodd]

theorem two_zpow_pos (k : ℤ) : (0 : ℚ) < 2 ^ k := zpow_pos (by norm_num) k

theorem two_zpow_mono {a b : ℤ} (h : a ≤ b) : (2 : ℚ) ^ a ≤ 2 ^ b :=
  zpow_le_zpow_right₀ (by norm_num) h

theorem two_zpow_eq_intCast {d : ℤ} (hd : 0 ≤ d) : (2 : ℚ) ^ d = (((2 : ℤ) ^ d.toNat : ℤ) : ℚ) := by
  lift d to ℕ using hd
  simp

theorem zpow_log_le {q : ℚ} (hq : 0 < q) : (2 : ℚ) ^ Int.log 2 q ≤ q := by
  simpa using Int.zpow_log_le_self (b := 2) (by norm_num) hq

theorem lt_zpow_log_succ (q : ℚ) : q < (2 : ℚ) ^ (Int.log 2 q + 1) := by
  simpa using Int.lt_zpow_succ_log_self (b := 2) (by norm_num) q

theorem log_eq_of_bounds {q : ℚ} {e : ℤ} (h1 : (2 : ℚ) ^ e ≤ q) (h2 : q < (2 : ℚ) ^ (e + 1)) :
    Int.log 2 q = e := by
  have hq : 0 < q := lt_of_lt_of_le (two_zpow_pos e) h1
  have a1 : e ≤ Int.log 2 q :=
    (Int.zpow_le_iff_le_log (b := 2) (by norm_num) hq).mp (by simpa using h1)
  have a2 : Int.log 2 q < e + 1 :=
    (Int.lt_zpow_iff_log_lt (b := 2) (by norm_num) hq).mp (by simpa using h2)
  omega

theorem ulpExp_mono (p : ℕ) (emin : ℤ) {q q' : ℚ} (hq : 0 < q) (h : q ≤ q') :
    ulpExp p emin q ≤ ulpExp p emin q' := by
  unfold ulpExp
  have := Int.log_mono_right (b := 2) hq h
  omega

theorem roundMag_nonneg (p : ℕ) (emin : ℤ) {q : ℚ} (hq : 0 ≤ q) : 0 ≤ roundMag p emin q := by
  unfold roundMag
  have h0 : ((0 : ℤ) : ℚ) ≤ q / 2 ^ ulpExp p emin q := by
    simpa using div_nonneg hq (two_zpow_pos _).le
  have h1 : (0 : ℤ) ≤ roundHalfEven (q / 2 ^ ulpExp p emin q) := le_roundHalfEven h0
  have h2 : (0 : ℚ) ≤ (roundHalfEven (q / 2 ^ ulpExp p emin q) : ℚ) := by exact_mod_cast h1
  exact mul_nonneg h2 (two_zpow_pos _).le

theorem roundMag_zero (p : ℕ) (emin : ℤ) : roundMag p emin 0 = 0 := by
  have h : roundHalfEven 0 = 0 := by simpa using roundHalfEven_intCast 0
  simp [roundMag, h]

theorem roundMag_le_zpow (p : ℕ) (emin : ℤ) {q : ℚ} {k : ℤ} (hk : ulpExp p emin q ≤ k)
    (h : q ≤ 2 ^ k) : roundMag p emin q ≤ 2 ^ k := by
  unfold roundMag
  have hU := two_zpow_pos (ulpExp p emin q)
  have hd : (0 : ℤ) ≤ k - ulpExp p emin q := by omega
  have e1 : (2 : ℚ) ^ k = 2 ^ (k - ulpExp p emin q) * 2 ^ ulpExp p emin q := by
    rw [← zpow_add₀ (by norm_num : (2 : ℚ) ≠ 0)]; congr 1; omega
  have h1 : q / 2 ^ ulpExp p emin q ≤ (((2 : ℤ) ^ (k - ulpExp p emin q).toNat : ℤ) : ℚ) := by
    rw [← two_zpow_eq_intCast hd, div_le_iff₀ hU, ← e1]; exact h
  have h2 := roundHalfEven_le h1
  have h3 : (roundHalfEven (q / 2 ^ ulpExp p emin q) : ℚ)
      ≤ (((2 : ℤ) ^ (k - ulpExp p emin q).toNat : ℤ) : ℚ) := by exact_mod_cast h2
  rw [e1, two_zpow_eq_intCast hd]
  exact mul_le_mul_of_nonneg_right h3 hU.le

theorem zpow_le_roundMag (p : ℕ) (emin : ℤ) {q : ℚ} {k : ℤ} (hk : ulpExp p emin q ≤ k)
    (h : 2 ^ k ≤ q) : 2 ^ k ≤ roundMag p emin q := by
  unfold roundMag
  have hU := two_zpow_pos (ulpExp p emin q)
  have hd : (0 : ℤ) ≤ k - ulpExp p emin q := by omega
  have e1 : (2 : ℚ) ^ k = 2 ^ (k - ulpExp p emin q) * 2 ^ ulpExp p emin q := by
    rw [← zpow_add₀ (by norm_num : (2 : ℚ) ≠ 0)]; congr 1; omega
  have h1 : (((2 : ℤ) ^ (k - ulpExp p emin q).toNat : ℤ) : ℚ) ≤ q / 2 ^ ulpExp p emin q := by
    rw [← two_zpow_eq_intCast hd, le_div_iff₀ hU, ← e1]; exact h
  have h2 := le_roundHalfEven h1
  have h3 : (((2 : ℤ) ^ (k - ulpExp p emin q).toNat : ℤ) : ℚ)
      ≤ (roundHalfEven (q / 2 ^ ulpExp p emin q) : ℚ) := by exact_mod_cast h2
  rw [e1, two_zpow_eq_intCast hd]
  exact mul_le_mul_of_nonneg_right h3 hU.le

theorem roundMag_mono (p : ℕ) (emin : ℤ) (hp : 1 ≤ p) {q q' : ℚ} (hq : 0 ≤ q) (h : q ≤ q') :
    roundMag p emin q ≤ roundMag p emin q' := by
  rcases eq_or_lt_of_le hq with h0 | hpos
  · rw [← h0, roundMag_zero]
    exact roundMag_nonneg p emin (hq.trans h)
  · have hpos' : 0 < q' := lt_of_lt_of_le hpos h
    rcases eq_or_lt_of_le (ulpExp_mono p emin hpos h) with hE | hE
    · unfold roundMag
      rw [← hE]
      have hU := two_zpow_pos (ulpExp p emin q)
      have h1 : q / 2 ^ ulpExp p emin q ≤ q' / 2 ^ ulpExp p emin q :=
        div_le_div_of_nonneg_right h hU.le
      have h2 : (roundHalfEven (q / 2 ^ ulpExp p emin q) : ℚ)
          ≤ (roundHalfEven (q' / 2 ^ ulpExp p emin q) : ℚ) := by
        exact_mod_cast roundHalfEven_mono h1
      exact mul_le_mul_of_nonneg_right h2 hU.le
    · have hlog := Int.log_mono_right (b := 2) hpos h
      have hp' : (1 : ℤ) ≤ (p : ℤ) := by exact_mod_cast hp
      have hk1 : ulpExp p emin q ≤ Int.log 2 q' := by unfold ulpExp at hE ⊢; omega
      have hk2 : ulpExp p emin q' ≤ Int.log 2 q' := by unfold ulpExp at hE ⊢; omega
      have hlt : Int.log 2 q + 1 ≤ Int.log 2 q' := by unfold ulpExp at hE; omega
      have a1 : q ≤ 2 ^ Int.log 2 q' :=
        (lt_zpow_log_succ q).le.trans (two_zpow_mono hlt)
      exact (roundMag_le_zpow p emin hk1 a1).trans
        (zpow_le_roundMag p emin hk2 (zpow_log_le hpos'))

theorem roundQ_mono (p : ℕ) (emin : ℤ) (hp : 1 ≤ p) {q q' : ℚ} (h : q ≤ q') :
    roundQ p emin q ≤ roundQ p emin q' := by
  unfold roundQ
  split_ifs with h1 h2 h2
  · exact roundMag_mono p emin hp h1 h
  · exact absurd (h1.trans h) h2
  · have := @roundMag_nonneg p emin (-q) (by linarith)
    have := roundMag_nonneg p emin h2
    linarith
  · have := @roundMag_mono p emin hp (-q') (-q) (by linarith) (by linarith)
    linarith

theorem roundMag_eq (p : ℕ) (emin : ℤ) {q : ℚ} (e u m : ℤ) (hu : u = max e emin - ((p : ℤ) - 1))
    (h1 : (2 : ℚ) ^ e ≤ q) (h2 : q < (2 : ℚ) ^ (e + 1)) (hm : roundHalfEven (q / 2 ^ u) = m) :
    roundMag p emin q = m * 2 ^ u := by
  have hlog := log_eq_of_bounds h1 h2
  have hU : ulpExp p emin q = u := by rw [ulpExp, hlog, hu]
  rw [roundMag, hU, hm]

theorem roundMag_zpow (p : ℕ) (emin : ℤ) {k : ℤ} (hk : emin - ((p : ℤ) - 1) ≤ k)
    (hp : 1 ≤ p) : roundMag p emin (2 ^ k) = 2 ^ k := by
  have hp' : (1 : ℤ) ≤ (p : ℤ) := by exact_mod_cast hp
  have hlog : Int.log 2 ((2 : ℚ) ^ k) = k := by
    simpa using Int.log_zpow (R := ℚ) (b := 2) (by norm_num) k
  have hU : ulpExp p emin ((2 : ℚ) ^ k) ≤ k := by rw [ulpExp, hlog]; omega
  exact le_antisymm (roundMag_le_zpow p emin hU le_rfl) (zpow_le_roundMag p emin hU le_rfl)

theorem roundMag_intCast_mul (p : ℕ) (emin : ℤ) {m : ℤ} {u : ℤ} (hm0 : 0 < m)
    (hm : m < 2 ^ p) (hu : emin - ((p : ℤ) - 1) ≤ u)
    (hlow : (2 : ℤ) ^ (p - 1) ≤ m ∨ u = emin - ((p : ℤ) - 1)) :
    roundMag p emin ((m : ℚ) * 2 ^ u) = (m : ℚ) * 2 ^ u := by
  have hupos := two_zpow_pos u
  have hmq : (0 : ℚ) < (m : ℚ) := by exact_mod_cast hm0
  have hx : (0 : ℚ) < (m : ℚ) * 2 ^ u := mul_pos hmq hupos
  have hmlt : (m : ℚ) < 2 ^ (p : ℤ) := by
    rw [zpow_natCast]; exact_mod_cast hm
  have hxlt : (m : ℚ) * 2 ^ u < 2 ^ (u + p) := by
    rw [add_comm, zpow_add₀ (by norm_num : (2 : ℚ) ≠ 0)]
    exact mul_lt_mul_of_pos_right hmlt hupos
  have hlogle : Int.log 2 ((m : ℚ) * 2 ^ u) < u + p :=
    (Int.lt_zpow_iff_log_lt (b := 2) (by norm_num) hx).mp (by simpa using hxlt)
  have hU : ulpExp p emin ((m : ℚ) * 2 ^ u) = u := by
    rcases hlow with hl | hl
    · have hp1 : ((p - 1 : ℕ) : ℤ) + 1 = p ∨ p = 0 := by omega
      have hge : (2 : ℚ) ^ (u + ((p - 1 : ℕ) : ℤ)) ≤ (m : ℚ) * 2 ^ u := by
        rw [add_comm, zpow_add₀ (by norm_num : (2 : ℚ) ≠ 0), zpow_natCast]
        have : ((2 : ℚ) ^ (p - 1)) ≤ (m : ℚ) := by exact_mod_cast hl
        exact mul_le_mul_of_nonneg_right this hupos.le
      have hlogge : u + ((p - 1 : ℕ) : ℤ) ≤ Int.log 2 ((m : ℚ) * 2 ^ u) :=
        (Int.zpow_le_iff_le_log (b := 2) (by norm_num) hx).mp (by simpa using hge)
      unfold ulpExp
      rcases hp1 with hp1 | hp1
      · omega
      · subst hp1
        simp at hm
        omega
    · unfold ulpExp
      omega
  rw [roundMag, hU, mul_div_assoc, div_self hupos.ne', mul_one, roundHalfEven_intCast]

theorem roundMag_roundMag (p : ℕ) (emin : ℤ) (hp : 1 ≤ p) {q : ℚ} (hq : 0 ≤ q) :
    roundMag p emin (roundMag p emin q) = roundMag p emin q := by
  have hp' : (1 : ℤ) ≤ (p : ℤ) := by exact_mod_cast hp
  rcases eq_or_lt_of_le hq with h0 | hpos
  · rw [← h0, roundMag_zero, roundMag_zero]
  · have hupos := two_zpow_pos (ulpExp p emin q)
    have hqlt : q < 2 ^ (ulpExp p emin q + p) := by
      refine lt_of_lt_of_le (lt_zpow_log_succ q) (two_zpow_mono ?_)
      unfold ulpExp; omega
    have hdiv : q / 2 ^ ulpExp p emin q ≤ (((2 : ℤ) ^ p : ℤ) : ℚ) := by
      rw [div_le_iff₀ hupos]
      push_cast
      rw [← zpow_natCast, ← zpow_add₀ (by norm_num : (2 : ℚ) ≠ 0), add_comm]
      exact hqlt.le
    have hM := roundHalfEven_le hdiv
    have hM0 : (0 : ℤ) ≤ roundHalfEven (q / 2 ^ ulpExp p emin q) :=
      le_roundHalfEven (by simpa using div_nonneg hq hupos.le)
    have hue : emin - ((p : ℤ) - 1) ≤ ulpExp p emin q := by unfold ulpExp; omega
    rcases eq_or_lt_of_le hM0 with hz | hMpos
    · have : roundMag p emin q = 0 := by rw [roundMag, ← hz]; simp
      rw [this, roundMag_zero]
    · rcases eq_or_lt_of_le hM with htop | hlt
      · have hval : roundMag p emin q = 2 ^ (ulpExp p emin q + p) := by
          rw [roundMag, htop]
          push_cast
          rw [← zpow_natCast, ← zpow_add₀ (by norm_num : (2 : ℚ) ≠ 0), add_comm]
        rw [hval]
        exact roundMag_zpow p emin (by omega) hp
      · have hlow : (2 : ℤ) ^ (p - 1) ≤ roundHalfEven (q / 2 ^ ulpExp p emin q) ∨
            ulpExp p emin q = emin - ((p : ℤ) - 1) := by
          by_cases hn : emin ≤ Int.log 2 q
          · left
            apply le_roundHalfEven
            rw [le_div_iff₀ hupos]
            push_cast
            rw [← zpow_natCast, ← zpow_add₀ (by norm_num : (2 : ℚ) ≠ 0)]
            refine le_trans (two_zpow_mono ?_) (zpow_log_le hpos)
            unfold ulpExp
            have : ((p - 1 : ℕ) : ℤ) = (p : ℤ) - 1 := by omega
            omega
          · right
            unfold ulpExp; omega
        exact roundMag_intCast_mul p emin hMpos hlt hue hlow

theorem roundQ_neg (p : ℕ) (emin : ℤ) (q : ℚ) : roundQ p emin (-q) = -roundQ p emin q := by
  unfold roundQ
  rcases lt_trichotomy q 0 with h | h | h
  · rw [if_pos (by linarith), if_neg (by linarith)]; simp
  · subst h; simp [roundMag_zero]
  · rw [if_neg (by linarith), if_pos (by linarith), neg_neg]

theorem roundQ_roundQ (p : ℕ) (emin : ℤ) (hp : 1 ≤ p) (q : ℚ) :
    roundQ p emin (roundQ p emin q) = roundQ p emin q := by
  by_cases h : 0 ≤ q
  · have h1 : roundQ p emin q = roundMag p emin q := if_pos h
    rw [h1]
    have h2 : roundQ p emin (roundMag p emin q) = roundMag p emin (roundMag p emin q) :=
      if_pos (roundMag_nonneg p emin h)
    rw [h2, roundMag_roundMag p emin hp h]
  · have hq : 0 ≤ -q := by linarith
    have h1 : roundQ p emin q = -roundMag p emin (-q) := if_neg h
    rw [h1, roundQ_neg]
    have h2 : roundQ p emin (roundMag p emin (-q)) = roundMag p emin (roundMag p emin (-q)) :=
      if_pos (roundMag_nonneg p emin hq)
    rw [h2, roundMag_roundMag p emin hp hq]

theorem roundQ_zpow (p : ℕ) (emin : ℤ) {k : ℤ} (hk : emin - ((p : ℤ) - 1) ≤ k) (hp : 1 ≤ p) :
    roundQ p emin (2 ^ k) = 2 ^ k := by
  rw [roundQ, if_pos (two_zpow_pos k).le, roundMag_zpow p emin hk hp]

theorem abs_roundQ_le_zpow (p : ℕ) (emin : ℤ) (hp : 1 ≤ p) {k : ℤ}
    (hk : emin - ((p : ℤ) - 1) ≤ k) {q : ℚ} (h : |q| ≤ 2 ^ k) : |roundQ p emin q| ≤ 2 ^ k := by
  rw [abs_le] at h ⊢
  constructor
  · have := roundQ_mono p emin hp h.1
    rwa [roundQ_neg, roundQ_zpow p emin hk hp] at this
  · have := roundQ_mono p emin hp h.2
    rwa [roundQ_zpow p emin hk hp] at this

theorem rnd_eq {q : ℚ} (e u m : ℤ) (r : ℚ) (hu : u = max e (-1022) - 52)
    (h1 : (2 : ℚ) ^ e ≤ q) (h2 : q < (2 : ℚ) ^ (e + 1)) (hm : roundHalfEven (q / 2 ^ u) = m)
    (hr : r = m * 2 ^ u) : rnd q = r := by
  have hq : 0 ≤ q := le_trans (two_zpow_pos e).le h1
  rw [rnd, roundQ, if_pos hq, hr]
  exact roundMag_eq 53 (-1022) e u m (by rw [hu]; norm_num) h1 h2 hm

theorem rnd_mono {q q' : ℚ} (h : q ≤ q') : rnd q ≤ rnd q' := roundQ_mono 53 (-1022) (by norm_num) h

theorem rnd_rnd (q : ℚ) : rnd (rnd q) = rnd q := roundQ_roundQ 53 (-1022) (by norm_num) q

theorem rnd_zero : rnd 0 = 0 := by simp [rnd, roundQ, roundMag_zero]

theorem rnd_one : rnd 1 = 1 := by
  simpa using roundQ_zpow 53 (-1022) (k := 0) (by norm_num) (by norm_num)

theorem dbl_eq_fin {q : ℚ} (h : |q| ≤ 2 ^ (1023 : ℤ)) : dbl q = Fp.fin (rnd q) := by
  have h1 := abs_roundQ_le_zpow 53 (-1022) (by norm_num) (k := 1023) (by norm_num) h
  have h2 : (2 : ℚ) ^ (1023 : ℤ) < 2 ^ ((1023 : ℤ) + 1) :=
    zpow_lt_zpow_right₀ (by norm_num) (by norm_num)
  rw [dbl, round, if_neg (not_le.mpr (lt_of_le_of_lt h1 h2))]
  rfl

theorem flt_eq_fin {q : ℚ} (h : |q| ≤ 2 ^ (127 : ℤ)) : flt q = Fp.fin (roundQ 24 (-126) q) := by
  have h1 := abs_roundQ_le_zpow 24 (-126) (by norm_num) (k := 127) (by norm_num) h
  have h2 : (2 : ℚ) ^ (127 : ℤ) < 2 ^ ((127 : ℤ) + 1) :=
    zpow_lt_zpow_right₀ (by norm_num) (by norm_num)
  rw [flt, round, if_neg (not_le.mpr (lt_of_le_of_lt h1 h2))]

theorem dbl_eq_aux {q : ℚ} (e u m : ℤ) (r : ℚ) (he : e < 1023) (hu : u = max e (-1022) - 52)
    (h1 : (2 : ℚ) ^ e ≤ q) (h2 : q < (2 : ℚ) ^ (e + 1)) (hm : roundHalfEven (q / 2 ^ u) = m)
    (hr : r = m * 2 ^ u) : dbl q = Fp.fin r := by
  have hq : 0 ≤ q := le_trans (two_zpow_pos e).le h1
  have hb : |q| ≤ 2 ^ (1023 : ℤ) := by
    rw [abs_of_nonneg hq]
    exact h2.le.trans (two_zpow_mono (by omega))
  rw [dbl_eq_fin hb, rnd_eq e u m r hu h1 h2 hm hr]

theorem flt_eq {q : ℚ} (e u m : ℤ) (r : ℚ) (he : e < 127) (hu : u = max e (-126) - 23)
    (h1 : (2 : ℚ) ^ e ≤ q) (h2 : q < (2 : ℚ) ^ (e + 1)) (hm : |q / 2 ^ u - m| < 1 / 2)
    (hr : r = m * 2 ^ u) : flt q = Fp.fin r := by
  have hq : 0 ≤ q := le_trans (two_zpow_pos e).le h1
  have hb : |q| ≤ 2 ^ (127 : ℤ) := by
    rw [abs_of_nonneg hq]
    exact h2.le.trans (two_zpow_mono (by omega))
  rw [flt_eq_fin hb, roundQ, if_pos hq, hr]
  exact congrArg Fp.fin (roundMag_eq 24 (-126) e u m (by rw [hu]; norm_num) h1 h2
    (roundHalfEven_eq_of_abs_lt hm))

theorem dbl_eq {q : ℚ} (e u m : ℤ) (r : ℚ) (he : e < 1023) (hu : u = max e (-1022) - 52)
    (h1 : (2 : ℚ) ^ e ≤ q) (h2 : q < (2 : ℚ) ^ (e + 1)) (hm : |q / 2 ^ u - m| < 1 / 2)
    (hr : r = m * 2 ^ u) : dbl q = Fp.fin r :=
  dbl_eq_aux e u m r he hu h1 h2 (roundHalfEven_eq_of_abs_lt hm) hr

theorem dbl_eq_tie {q : ℚ} (e u m : ℤ) (r : ℚ) (he : e < 1023) (hu : u = max e (-1022) - 52)
    (h1 : (2 : ℚ) ^ e ≤ q) (h2 : q < (2 : ℚ) ^ (e + 1)) (hm : |q / 2 ^ u - m| = 1 / 2)
    (hm2 : m % 2 = 0) (hr : r = m * 2 ^ u) : dbl q = Fp.fin r :=
  dbl_eq_aux e u m r he hu h1 h2 (roundHalfEven_eq_of_tie hm hm2) hr

theorem dbl_zero : dbl 0 = Fp.fin 0 := by
  rw [dbl_eq_fin (by norm_num), rnd_zero]

/-! ## Values of the literals and of the sums at the extreme colours -/

theorem dbl_2126 : dbl (2126 / 10000) = Fp.fin (1914930561557935 / 9007199254740992) := by
  apply dbl_eq (-3) (-55) 7659722246231740 <;> norm_num [abs_lt]

theorem dbl_722 : dbl (722 / 10000) = Fp.fin (5202558289538397 / 72057594037927936) := by
  apply dbl_eq (-4) (-56) 5202558289538397 <;> norm_num [abs_lt]

theorem dbl_7152 : dbl (7152 / 10000) = Fp.fin (6441948906990757 / 9007199254740992) := by
  apply dbl_eq (-1) (-53) 6441948906990757 <;> norm_num [abs_lt]

theorem dbl_5 : dbl (5 / 100) = Fp.fin (3602879701896397 / 72057594037927936) := by
  apply dbl_eq (-5) (-57) 7205759403792794 <;> norm_num [abs_lt]

theorem dbl_3928 : dbl (3928 / 100000) = Fp.fin (5660844587619619 / 144115188075855872) := by
  apply dbl_eq (-5) (-57) 5660844587619619 <;> norm_num [abs_lt]

theorem dbl_1292 : dbl (1292 / 100) = Fp.fin (7273313398203351 / 562949953421312) := by
  apply dbl_eq (3) (-49) 7273313398203351 <;> norm_num [abs_lt]

theorem dbl_55 : dbl (55 / 1000) = Fp.fin (7926335344172073 / 144115188075855872) := by
  apply dbl_eq (-5) (-57) 7926335344172073 <;> norm_num [abs_lt]

theorem dbl_1055 : dbl (1055 / 1000) = Fp.fin (4751297606875873 / 4503599627370496) := by
  apply dbl_eq (0) (-52) 4751297606875873 <;> norm_num [abs_lt]

theorem dbl_one : dbl (1) = Fp.fin (1) := by
  apply dbl_eq (0) (-52) 4503599627370496 <;> norm_num [abs_lt]

theorem flt_one : flt (1) = Fp.fin (1) := by
  apply flt_eq (0) (-23) 8388608 <;> norm_num [abs_lt]

theorem dbl_k2126 : dbl (1914930561557935 / 9007199254740992) = Fp.fin (1914930561557935 / 9007199254740992) := by
  apply dbl_eq (-3) (-55) 7659722246231740 <;> norm_num [abs_lt]

theorem dbl_k722 : dbl (5202558289538397 / 72057594037927936) = Fp.fin (5202558289538397 / 72057594037927936) := by
  apply dbl_eq (-4) (-56) 5202558289538397 <;> norm_num [abs_lt]

theorem dbl_k7152 : dbl (6441948906990757 / 9007199254740992) = Fp.fin (6441948906990757 / 9007199254740992) := by
  apply dbl_eq (-1) (-53) 6441948906990757 <;> norm_num [abs_lt]

theorem dbl_k5 : dbl (3602879701896397 / 72057594037927936) = Fp.fin (3602879701896397 / 72057594037927936) := by
  apply dbl_eq (-5) (-57) 7205759403792794 <;> norm_num [abs_lt]

theorem dbl_sum_rb : dbl (1914930561557935 / 9007199254740992 + 5202558289538397 / 72057594037927936) = Fp.fin (5130500695500469 / 18014398509481984) := by
  apply dbl_eq (-2) (-54) 5130500695500469 <;> norm_num [abs_lt]

theorem dbl_sum_rbg : dbl (5130500695500469 / 18014398509481984 + 6441948906990757 / 9007199254740992) = Fp.fin (1) := by
  apply dbl_eq_tie (-1) (-53) 9007199254740992 <;> norm_num [abs_eq_abs]

theorem dbl_one_add_55 : dbl (1 + 7926335344172073 / 144115188075855872) = Fp.fin (4751297606875873 / 4503599627370496) := by
  apply dbl_eq (0) (-52) 4751297606875873 <;> norm_num [abs_lt]

theorem dbl_one_add_5 : dbl (1 + 3602879701896397 / 72057594037927936) = Fp.fin (4728779608739021 / 4503599627370496) := by
  apply dbl_eq (0) (-52) 4728779608739021 <;> norm_num [abs_lt]

theorem dbl_white_black : dbl ((4728779608739021 / 4503599627370496) / (3602879701896397 / 72057594037927936)) = Fp.fin (21) := by
  apply dbl_eq (4) (-48) 5910974510923776 <;> norm_num [abs_lt]

/-! ## Comparison and selection -/

theorem fmax_comm (x y : Fp) : fmax x y = fmax y x := by
  cases x <;> cases y <;> simp [fmax, max_comm, Bool.and_comm]

theorem fmin_comm (x y : Fp) : fmin x y = fmin y x := by
  cases x <;> cases y <;> simp [fmin, min_comm, Bool.or_comm]

theorem fgt_irrefl (x : Fp) : fgt x x = false := by
  cases x <;> simp [fgt]

theorem contrast_symm (powf : Fp → Fp → Fp) (a b : GdkRGBA) :
    get_contrast_level powf a b = get_contrast_level powf b a := by
  unfold get_contrast_level
  rw [fmax_comm (get_relative_luminance powf a), fmin_comm (get_relative_luminance powf a)]

/-! ## Black and white -/

theorem get_srgb_zero (powf : Fp → Fp → Fp) : get_srgb powf (Fp.fin 0) = Fp.fin 0 := by
  unfold get_srgb
  rw [dbl_3928, dbl_1292]
  have h1 : fle (Fp.fin 0) (Fp.fin (5660844587619619 / 144115188075855872)) = true := by
    simp [fle]; norm_num
  rw [h1]
  simp [fdiv, dbl_zero]

theorem get_srgb_one (powf : Fp → Fp → Fp) (h : PowfOne powf) :
    get_srgb powf (Fp.fin 1) = Fp.fin 1 := by
  unfold get_srgb
  rw [dbl_3928, dbl_55, dbl_1055]
  have h1 : fle (Fp.fin 1) (Fp.fin (5660844587619619 / 144115188075855872)) = false := by
    simp [fle]; norm_num
  rw [h1]
  have h2 : fdiv (fadd (Fp.fin 1) (Fp.fin (7926335344172073 / 144115188075855872)))
      (Fp.fin (4751297606875873 / 4503599627370496)) = Fp.fin 1 := by
    show fdiv (dbl _) _ = _
    rw [dbl_one_add_55]
    show (if _ then _ else dbl _) = _
    rw [if_neg (by norm_num), div_self (by norm_num), dbl_one]
  simp only [h2, toFloat, flt_one, Bool.false_eq_true, if_false]
  exact h

theorem luminance_black (powf : Fp → Fp → Fp) :
    get_relative_luminance powf black = Fp.fin 0 := by
  simp [get_relative_luminance, black, get_srgb_zero, dbl_2126, dbl_722, dbl_7152, fmul, fadd,
    dbl_zero]

theorem luminance_white (powf : Fp → Fp → Fp) (h : PowfOne powf) :
    get_relative_luminance powf white = Fp.fin 1 := by
  simp only [get_relative_luminance, white, get_srgb_one powf h, dbl_2126, dbl_722, dbl_7152,
    fmul, fadd, one_mul, dbl_k2126, dbl_k722, dbl_k7152, dbl_sum_rb, dbl_sum_rbg]

theorem contrast_of_luminance (powf : Fp → Fp → Fp) (a b : GdkRGBA) {x y : ℚ}
    (ha : get_relative_luminance powf a = Fp.fin x)
    (hb : get_relative_luminance powf b = Fp.fin y) :
    get_contrast_level powf a b =
      fdiv (dbl (max x y + 3602879701896397 / 72057594037927936))
        (dbl (min x y + 3602879701896397 / 72057594037927936)) := by
  simp only [get_contrast_level, ha, hb, fmax, fmin, dbl_5, fadd]

theorem contrast_white_black (powf : Fp → Fp → Fp) (h : PowfOne powf) :
    get_contrast_level powf white black = Fp.fin 21 := by
  rw [contrast_of_luminance powf white black (luminance_white powf h) (luminance_black powf)]
  have e1 : max (1 : ℚ) 0 = 1 := by norm_num
  have e2 : min (1 : ℚ) 0 = 0 := by norm_num
  rw [e1, e2, zero_add, dbl_one_add_5, dbl_k5]
  show (if _ then _ else dbl _) = _
  rw [if_neg (by norm_num), dbl_white_black]

theorem contrast_black_white (powf : Fp → Fp → Fp) (h : PowfOne powf) :
    get_contrast_level powf black white = Fp.fin 21 := by
  rw [contrast_symm, contrast_white_black powf h]

theorem contrast_white_white (powf : Fp → Fp → Fp) (h : PowfOne powf) :
    get_contrast_level powf white white = Fp.fin 1 := by
  rw [contrast_of_luminance powf white white (luminance_white powf h) (luminance_white powf h)]
  rw [max_self, min_self, dbl_one_add_5]
  show (if _ then _ else dbl _) = _
  rw [if_neg (by norm_num), div_self (by norm_num), dbl_one]

theorem contrast_black_black (powf : Fp → Fp → Fp) :
    get_contrast_level powf black black = Fp.fin 1 := by
  rw [contrast_of_luminance powf black black (luminance_black powf) (luminance_black powf)]
  rw [max_self, min_self, zero_add, dbl_k5]
  show (if _ then _ else dbl _) = _
  rw [if_neg (by norm_num), div_self (by norm_num), dbl_one]

theorem powfSquare_one : PowfOne powfSquare := by
  show flt (1 * 1) = Fp.fin 1
  rw [one_mul, flt_one]

theorem powfSquare_unit : PowfUnit powfSquare := by
  intro x _ h0 h1
  have hx : 0 ≤ x * x := mul_nonneg h0.le h0.le
  have hx1 : x * x ≤ 1 := by nlinarith
  have hb : |x * x| ≤ 2 ^ (127 : ℤ) := by
    rw [abs_of_nonneg hx]
    exact hx1.trans (by norm_num)
  show inUnit (flt (x * x)) = true
  rw [flt_eq_fin hb]
  have l0 : roundQ 24 (-126) 0 ≤ roundQ 24 (-126) (x * x) := roundQ_mono 24 (-126) (by norm_num) hx
  have l1 : roundQ 24 (-126) (x * x) ≤ roundQ 24 (-126) 1 := roundQ_mono 24 (-126) (by norm_num) hx1
  have r0 : roundQ 24 (-126) 0 = 0 := by simp [roundQ, roundMag_zero]
  have r1 : roundQ 24 (-126) 1 = 1 := by
    simpa using roundQ_zpow 24 (-126) (k := 0) (by norm_num) (by norm_num)
  rw [r0] at l0
  rw [r1] at l1
  simp [inUnit, l0, l1]

/-! ## Bounds on the unit interval -/

theorem rnd_nonneg {q : ℚ} (h : 0 ≤ q) : 0 ≤ rnd q := by
  have := rnd_mono h
  rwa [rnd_zero] at this

theorem rnd_le_one {q : ℚ} (h : q ≤ 1) : rnd q ≤ 1 := by
  have := rnd_mono h
  rwa [rnd_one] at this

theorem one_le_rnd {q : ℚ} (h : 1 ≤ q) : 1 ≤ rnd q := by
  have := rnd_mono h
  rwa [rnd_one] at this

theorem rnd_zpow {k : ℤ} (hk : -1074 ≤ k) : rnd (2 ^ k) = 2 ^ k :=
  roundQ_zpow 53 (-1022) (by norm_num; omega) (by norm_num)

theorem rnd_two : rnd 2 = 2 := by
  simpa using rnd_zpow (k := 1) (by norm_num)

theorem rnd_inv_32 : rnd (1 / 32) = 1 / 32 := by
  have h := rnd_zpow (k := -5) (by norm_num)
  have e : (2 : ℚ) ^ (-5 : ℤ) = 1 / 32 := by norm_num
  rwa [e] at h

theorem rnd_inv_64 : rnd (1 / 64) = 1 / 64 := by
  have h := rnd_zpow (k := -6) (by norm_num)
  have e : (2 : ℚ) ^ (-6 : ℤ) = 1 / 64 := by norm_num
  rwa [e] at h

theorem dbl_small {q : ℚ} (h0 : 0 ≤ q) (h : q ≤ 64) : dbl q = Fp.fin (rnd q) := by
  apply dbl_eq_fin
  rw [abs_of_nonneg h0]
  exact h.trans (by norm_num)

theorem rnd_of_dbl {q r : ℚ} (h0 : 0 ≤ q) (h : q ≤ 64) (hd : dbl q = Fp.fin r) : rnd q = r := by
  rw [dbl_small h0 h] at hd
  exact Fp.fin.inj hd

theorem rnd_5_ge : 1 / 32 ≤ rnd (5 / 100) := by
  have := rnd_mono (show (1 / 32 : ℚ) ≤ 5 / 100 by norm_num)
  rwa [rnd_inv_32] at this

theorem rnd_55_ge : 1 / 32 ≤ rnd (55 / 1000) := by
  have := rnd_mono (show (1 / 32 : ℚ) ≤ 55 / 1000 by norm_num)
  rwa [rnd_inv_32] at this

theorem rnd_1292_ge : 1 ≤ rnd (1292 / 100) := one_le_rnd (by norm_num)

theorem rnd_1055_ge : 1 ≤ rnd (1055 / 1000) := one_le_rnd (by norm_num)

theorem rnd_1055_le : rnd (1055 / 1000) ≤ 2 := by
  have := rnd_mono (show (1055 / 1000 : ℚ) ≤ 2 by norm_num)
  rwa [rnd_two] at this

theorem rnd_one_add_55 : rnd (1 + rnd (55 / 1000)) = rnd (1055 / 1000) := by
  rw [rnd_of_dbl (by norm_num) (by norm_num) dbl_55,
    rnd_of_dbl (by norm_num) (by norm_num) dbl_1055]
  exact rnd_of_dbl (by norm_num) (by norm_num) dbl_one_add_55

theorem rnd_sum_coefficients :
    rnd (rnd (rnd (2126 / 10000) + rnd (722 / 10000)) + rnd (7152 / 10000)) = 1 := by
  rw [rnd_of_dbl (by norm_num) (by norm_num) dbl_2126,
    rnd_of_dbl (by norm_num) (by norm_num) dbl_722,
    rnd_of_dbl (by norm_num) (by norm_num) dbl_7152,
    rnd_of_dbl (by norm_num) (by norm_num) dbl_sum_rb]
  exact rnd_of_dbl (by norm_num) (by norm_num) dbl_sum_rbg

theorem rnd_top_contrast : rnd (rnd (1 + rnd (5 / 100)) / rnd (5 / 100)) = 21 := by
  rw [rnd_of_dbl (by norm_num) (by norm_num) dbl_5,
    rnd_of_dbl (by norm_num) (by norm_num) dbl_one_add_5]
  exact rnd_of_dbl (by norm_num) (by norm_num) dbl_white_black

theorem inUnit_iff {x : Fp} : inUnit x = true ↔ ∃ q, x = Fp.fin q ∧ 0 ≤ q ∧ q ≤ 1 := by
  cases x <;> simp [inUnit]

theorem flt_base {z : ℚ} (h0 : 1 / 64 ≤ z) (h1 : z ≤ 1) :
    ∃ x, flt z = Fp.fin x ∧ flt x = Fp.fin x ∧ 0 < x ∧ x ≤ 1 := by
  have hb : |z| ≤ 2 ^ (127 : ℤ) := by
    rw [abs_of_nonneg (by linarith)]
    exact h1.trans (by norm_num)
  have l0 := roundQ_mono 24 (-126) (by norm_num) h0
  have l1 := roundQ_mono 24 (-126) (by norm_num) h1
  have r0 : roundQ 24 (-126) (1 / 64) = 1 / 64 := by
    have h := roundQ_zpow 24 (-126) (k := -6) (by norm_num) (by norm_num)
    have e : (2 : ℚ) ^ (-6 : ℤ) = 1 / 64 := by norm_num
    rwa [e] at h
  have r1 : roundQ 24 (-126) 1 = 1 := by
    simpa using roundQ_zpow 24 (-126) (k := 0) (by norm_num) (by norm_num)
  rw [r0] at l0
  rw [r1] at l1
  refine ⟨roundQ 24 (-126) z, flt_eq_fin hb, ?_, by linarith, l1⟩
  have hb2 : |roundQ 24 (-126) z| ≤ 2 ^ (127 : ℤ) := by
    rw [abs_of_nonneg (by linarith)]
    exact l1.trans (by norm_num)
  rw [flt_eq_fin hb2, roundQ_roundQ 24 (-126) (by norm_num)]

theorem get_srgb_linear (powf : Fp → Fp → Fp) {q : ℚ} (h : q ≤ rnd (3928 / 100000)) :
    get_srgb powf (Fp.fin q) = dbl (q / rnd (1292 / 100)) := by
  unfold get_srgb
  rw [dbl_small (q := 3928 / 100000) (by norm_num) (by norm_num),
    dbl_small (q := 1292 / 100) (by norm_num) (by norm_num)]
  have h1 : fle (Fp.fin q) (Fp.fin (rnd (3928 / 100000))) = true := by simp [fle, h]
  rw [h1, if_pos rfl]
  show (if _ then _ else dbl _) = _
  rw [if_neg (by have := rnd_1292_ge; linarith)]

theorem srgb_base {q : ℚ} (h0 : 0 ≤ q) (h1 : q ≤ 1) :
    toFloat (fdiv (fadd (Fp.fin q) (dbl (55 / 1000))) (dbl (1055 / 1000))) =
      flt (rnd (rnd (q + rnd (55 / 1000)) / rnd (1055 / 1000))) ∧
    1 / 64 ≤ rnd (rnd (q + rnd (55 / 1000)) / rnd (1055 / 1000)) ∧
    rnd (rnd (q + rnd (55 / 1000)) / rnd (1055 / 1000)) ≤ 1 := by
  have ha := rnd_55_ge
  have ha1 := rnd_le_one (show (55 / 1000 : ℚ) ≤ 1 by norm_num)
  have hb := rnd_1055_ge
  have hb2 := rnd_1055_le
  have hs0 : 0 ≤ q + rnd (55 / 1000) := by linarith
  have hs1 : q + rnd (55 / 1000) ≤ 1 + rnd (55 / 1000) := by linarith
  have hsum_le : rnd (q + rnd (55 / 1000)) ≤ rnd (1055 / 1000) := by
    have := rnd_mono hs1
    rwa [rnd_one_add_55] at this
  have hsum_ge : 1 / 32 ≤ rnd (q + rnd (55 / 1000)) := by
    have := rnd_mono (show (1 / 32 : ℚ) ≤ q + rnd (55 / 1000) by linarith)
    rwa [rnd_inv_32] at this
  have hbpos : (0 : ℚ) < rnd (1055 / 1000) := by linarith
  have hq_le : rnd (q + rnd (55 / 1000)) / rnd (1055 / 1000) ≤ 1 := by
    rw [div_le_one hbpos]; exact hsum_le
  have hq_ge : 1 / 64 ≤ rnd (q + rnd (55 / 1000)) / rnd (1055 / 1000) := by
    rw [le_div_iff₀ hbpos]; linarith
  have hr_ge : 1 / 64 ≤ rnd (rnd (q + rnd (55 / 1000)) / rnd (1055 / 1000)) := by
    have := rnd_mono hq_ge
    rwa [rnd_inv_64] at this
  refine ⟨?_, hr_ge, rnd_le_one hq_le⟩
  rw [dbl_small (q := 55 / 1000) (by norm_num) (by norm_num),
    dbl_small (q := 1055 / 1000) (by norm_num) (by norm_num)]
  have e1 : fadd (Fp.fin q) (Fp.fin (rnd (55 / 1000))) = Fp.fin (rnd (q + rnd (55 / 1000))) :=
    dbl_small hs0 (by linarith)
  have e2 : fdiv (Fp.fin (rnd (q + rnd (55 / 1000)))) (Fp.fin (rnd (1055 / 1000))) =
      Fp.fin (rnd (rnd (q + rnd (55 / 1000)) / rnd (1055 / 1000))) := by
    show (if _ then _ else dbl _) = _
    rw [if_neg hbpos.ne']
    exact dbl_small (by linarith) (by linarith)
  rw [e1, e2]
  rfl

theorem get_srgb_power (powf : Fp → Fp → Fp) {q : ℚ} (h0 : 0 ≤ q) (h1 : q ≤ 1)
    (h : rnd (3928 / 100000) < q) :
    get_srgb powf (Fp.fin q) =
      powf (flt (rnd (rnd (q + rnd (55 / 1000)) / rnd (1055 / 1000))))
        (toFloat (dbl (24 / 10))) ∧
    1 / 64 ≤ rnd (rnd (q + rnd (55 / 1000)) / rnd (1055 / 1000)) ∧
    rnd (rnd (q + rnd (55 / 1000)) / rnd (1055 / 1000)) ≤ 1 := by
  obtain ⟨e, hlo, hhi⟩ := srgb_base h0 h1
  refine ⟨?_, hlo, hhi⟩
  unfold get_srgb
  rw [dbl_small (q := 3928 / 100000) (by norm_num) (by norm_num)]
  have hf : fle (Fp.fin q) (Fp.fin (rnd (3928 / 100000))) = false := by
    simp [fle, h]
  rw [hf, if_neg (by simp), e]

theorem get_srgb_unit (powf : Fp → Fp → Fp) (hpow : PowfUnit powf) {q : ℚ} (h0 : 0 ≤ q)
    (h1 : q ≤ 1) : ∃ s, get_srgb powf (Fp.fin q) = Fp.fin s ∧ 0 ≤ s ∧ s ≤ 1 := by
  by_cases h : q ≤ rnd (3928 / 100000)
  · have hd := rnd_1292_ge
    have hq0 : 0 ≤ q / rnd (1292 / 100) := div_nonneg h0 (by linarith)
    have hq1 : q / rnd (1292 / 100) ≤ 1 := by
      rw [div_le_one (by linarith)]; linarith
    refine ⟨rnd (q / rnd (1292 / 100)), ?_, rnd_nonneg hq0, rnd_le_one hq1⟩
    rw [get_srgb_linear powf h, dbl_small hq0 (by linarith)]
  · obtain ⟨e, hlo, hhi⟩ := get_srgb_power powf h0 h1 (not_le.mp h)
    obtain ⟨x, hx, hrep, hx0, hx1⟩ := flt_base hlo hhi
    rw [e, hx]
    exact inUnit_iff.mp (hpow x hrep hx0 hx1)

theorem mul_coefficient {s k : ℚ} (hs0 : 0 ≤ s) (hs1 : s ≤ 1) (hk0 : 0 ≤ k) (hk1 : k ≤ 1) :
    fmul (Fp.fin s) (Fp.fin (rnd k)) = Fp.fin (rnd (s * rnd k)) ∧ 0 ≤ rnd (s * rnd k) ∧
      rnd (s * rnd k) ≤ rnd k := by
  have c0 := rnd_nonneg hk0
  have c1 := rnd_le_one hk1
  have p0 : 0 ≤ s * rnd k := mul_nonneg hs0 c0
  have p1 : s * rnd k ≤ rnd k := by nlinarith
  refine ⟨dbl_small p0 (by linarith), rnd_nonneg p0, ?_⟩
  have := rnd_mono p1
  rwa [rnd_rnd] at this

theorem luminance_of_srgb (powf : Fp → Fp → Fp) (c : GdkRGBA) {r g b : ℚ}
    (hr : get_srgb powf c.red = Fp.fin r) (hg : get_srgb powf c.green = Fp.fin g)
    (hb : get_srgb powf c.blue = Fp.fin b)
    (hr0 : 0 ≤ r) (hr1 : r ≤ 1) (hg0 : 0 ≤ g) (hg1 : g ≤ 1) (hb0 : 0 ≤ b) (hb1 : b ≤ 1) :
    get_relative_luminance powf c =
      Fp.fin (rnd (rnd (rnd (r * rnd (2126 / 10000)) + rnd (b * rnd (722 / 10000))) +
        rnd (g * rnd (7152 / 10000)))) ∧
    0 ≤ rnd (rnd (rnd (r * rnd (2126 / 10000)) + rnd (b * rnd (722 / 10000))) +
        rnd (g * rnd (7152 / 10000))) ∧
    rnd (rnd (rnd (r * rnd (2126 / 10000)) + rnd (b * rnd (722 / 10000))) +
        rnd (g * rnd (7152 / 10000))) ≤ 1 := by
  obtain ⟨m1, a1, b1⟩ := mul_coefficient hr0 hr1 (k := 2126 / 10000) (by norm_num) (by norm_num)
  obtain ⟨m2, a2, b2⟩ := mul_coefficient hb0 hb1 (k := 722 / 10000) (by norm_num) (by norm_num)
  obtain ⟨m3, a3, b3⟩ := mul_coefficient hg0 hg1 (k := 7152 / 10000) (by norm_num) (by norm_num)
  have k1 := rnd_le_one (show (2126 / 10000 : ℚ) ≤ 1 by norm_num)
  have k2 := rnd_le_one (show (722 / 10000 : ℚ) ≤ 1 by norm_num)
  have k3 := rnd_le_one (show (7152 / 10000 : ℚ) ≤ 1 by norm_num)
  have s0 : 0 ≤ rnd (r * rnd (2126 / 10000)) + rnd (b * rnd (722 / 10000)) := by linarith
  have s1 : rnd (r * rnd (2126 / 10000)) + rnd (b * rnd (722 / 10000)) ≤
      rnd (2126 / 10000) + rnd (722 / 10000) := by linarith
  have t0 := rnd_nonneg s0
  have t1 := rnd_mono s1
  have u0 : 0 ≤ rnd (rnd (r * rnd (2126 / 10000)) + rnd (b * rnd (722 / 10000))) +
      rnd (g * rnd (7152 / 10000)) := by linarith
  have u1 : rnd (rnd (r * rnd (2126 / 10000)) + rnd (b * rnd (722 / 10000))) +
      rnd (g * rnd (7152 / 10000)) ≤
      rnd (rnd (2126 / 10000) + rnd (722 / 10000)) + rnd (7152 / 10000) := by linarith
  have v1 := rnd_mono u1
  rw [rnd_sum_coefficients] at v1
  have t2 : rnd (rnd (2126 / 10000) + rnd (722 / 10000)) ≤ 2 := by
    have := rnd_mono (show rnd (2126 / 10000) + rnd (722 / 10000) ≤ 2 by linarith)
    rwa [rnd_two] at this
  refine ⟨?_, rnd_nonneg u0, v1⟩
  unfold get_relative_luminance
  rw [hr, hg, hb, dbl_small (q := 2126 / 10000) (by norm_num) (by norm_num),
    dbl_small (q := 722 / 10000) (by norm_num) (by norm_num),
    dbl_small (q := 7152 / 10000) (by norm_num) (by norm_num), m1, m2, m3]
  have e1 : fadd (Fp.fin (rnd (r * rnd (2126 / 10000)))) (Fp.fin (rnd (b * rnd (722 / 10000)))) =
      Fp.fin (rnd (rnd (r * rnd (2126 / 10000)) + rnd (b * rnd (722 / 10000)))) :=
    dbl_small s0 (by linarith)
  rw [e1]
  exact dbl_small u0 (by linarith)

theorem luminance_unit (powf : Fp → Fp → Fp) (hpow : PowfUnit powf) (c : GdkRGBA)
    (hc : normalized c = true) :
    ∃ l, get_relative_luminance powf c = Fp.fin l ∧ 0 ≤ l ∧ l ≤ 1 := by
  simp only [normalized, Bool.and_eq_true] at hc
  obtain ⟨⟨hr, hg⟩, hb⟩ := hc
  obtain ⟨r, er, r0, r1⟩ := inUnit_iff.mp hr
  obtain ⟨g, eg, g0, g1⟩ := inUnit_iff.mp hg
  obtain ⟨b, eb, b0, b1⟩ := inUnit_iff.mp hb
  obtain ⟨sr, esr, sr0, sr1⟩ := get_srgb_unit powf hpow r0 r1
  obtain ⟨sg, esg, sg0, sg1⟩ := get_srgb_unit powf hpow g0 g1
  obtain ⟨sb, esb, sb0, sb1⟩ := get_srgb_unit powf hpow b0 b1
  rw [← er] at esr
  rw [← eg] at esg
  rw [← eb] at esb
  obtain ⟨e, l0, l1⟩ := luminance_of_srgb powf c esr esg esb sr0 sr1 sg0 sg1 sb0 sb1
  exact ⟨_, e, l0, l1⟩

theorem contrast_of_unit (powf : Fp → Fp → Fp) (a b : GdkRGBA) {x y : ℚ}
    (ha : get_relative_luminance powf a = Fp.fin x)
    (hb : get_relative_luminance powf b = Fp.fin y)
    (hx0 : 0 ≤ x) (hx1 : x ≤ 1) (hy0 : 0 ≤ y) (hy1 : y ≤ 1) :
    get_contrast_level powf a b =
      Fp.fin (rnd (rnd (max x y + rnd (5 / 100)) / rnd (min x y + rnd (5 / 100)))) ∧
    1 / 32 ≤ rnd (min x y + rnd (5 / 100)) ∧
    rnd (min x y + rnd (5 / 100)) ≤ rnd (max x y + rnd (5 / 100)) ∧
    rnd (max x y + rnd (5 / 100)) ≤ rnd (1 + rnd (5 / 100)) := by
  have hc := rnd_5_ge
  have hc1 := rnd_le_one (show (5 / 100 : ℚ) ≤ 1 by norm_num)
  have hm0 : 0 ≤ min x y := le_min hx0 hy0
  have hM1 : max x y ≤ 1 := max_le hx1 hy1
  have hmM : min x y ≤ max x y := min_le_max
  have d0 : 1 / 32 ≤ rnd (min x y + rnd (5 / 100)) := by
    have := rnd_mono (show (1 / 32 : ℚ) ≤ min x y + rnd (5 / 100) by linarith)
    rwa [rnd_inv_32] at this
  have dn : rnd (min x y + rnd (5 / 100)) ≤ rnd (max x y + rnd (5 / 100)) :=
    rnd_mono (by linarith)
  have n1 : rnd (max x y + rnd (5 / 100)) ≤ rnd (1 + rnd (5 / 100)) := rnd_mono (by linarith)
  have n2 : rnd (1 + rnd (5 / 100)) ≤ 2 := by
    have := rnd_mono (show 1 + rnd (5 / 100) ≤ 2 by linarith)
    rwa [rnd_two] at this
  refine ⟨?_, d0, dn, n1⟩
  simp only [get_contrast_level, ha, hb, fmax, fmin]
  rw [dbl_small (q := 5 / 100) (by norm_num) (by norm_num)]
  have e1 : fadd (Fp.fin (max x y)) (Fp.fin (rnd (5 / 100))) =
      Fp.fin (rnd (max x y + rnd (5 / 100))) := dbl_small (by linarith) (by linarith)
  have e2 : fadd (Fp.fin (min x y)) (Fp.fin (rnd (5 / 100))) =
      Fp.fin (rnd (min x y + rnd (5 / 100))) := dbl_small (by linarith) (by linarith)
  rw [e1, e2]
  show (if _ then _ else dbl _) = _
  rw [if_neg (by linarith)]
  have hpos : (0 : ℚ) < rnd (min x y + rnd (5 / 100)) := by linarith
  apply dbl_small (div_nonneg (by linarith) hpos.le)
  rw [div_le_iff₀ hpos]
  linarith

theorem contrast_range_aux (powf : Fp → Fp → Fp) (hpow : PowfUnit powf) (a b : GdkRGBA)
    (ha : normalized a = true) (hb : normalized b = true) :
    ∃ q, get_contrast_level powf a b = Fp.fin q ∧ 1 ≤ q ∧ q ≤ 21 := by
  obtain ⟨x, ex, x0, x1⟩ := luminance_unit powf hpow a ha
  obtain ⟨y, ey, y0, y1⟩ := luminance_unit powf hpow b hb
  obtain ⟨e, d0, dn, n1⟩ := contrast_of_unit powf a b ex ey x0 x1 y0 y1
  have hc := rnd_5_ge
  have hpos : (0 : ℚ) < rnd (min x y + rnd (5 / 100)) := by linarith
  refine ⟨_, e, one_le_rnd ?_, ?_⟩
  · rw [le_div_iff₀ hpos]; linarith
  · have hmin : rnd (5 / 100) ≤ rnd (min x y + rnd (5 / 100)) := by
      have := rnd_mono (show rnd (5 / 100) ≤ min x y + rnd (5 / 100) by
        have := le_min x0 y0; linarith)
      rwa [rnd_rnd] at this
    have hc0 : (0 : ℚ) < rnd (5 / 100) := by linarith
    have hn0 : 0 ≤ rnd (1 + rnd (5 / 100)) := rnd_nonneg (by linarith)
    have h1 : rnd (max x y + rnd (5 / 100)) / rnd (min x y + rnd (5 / 100)) ≤
        rnd (1 + rnd (5 / 100)) / rnd (5 / 100) :=
      div_le_div₀ hn0 n1 hc0 hmin
    have := rnd_mono h1
    rwa [rnd_top_contrast] at this

theorem contrast_equal_luminance (powf : Fp → Fp → Fp) (hpow : PowfUnit powf) (a b : GdkRGBA)
    (ha : normalized a = true)
    (h : get_relative_luminance powf a = get_relative_luminance powf b) :
    get_contrast_level powf a b = Fp.fin 1 := by
  obtain ⟨x, ex, x0, x1⟩ := luminance_unit powf hpow a ha
  have ey : get_relative_luminance powf b = Fp.fin x := by rw [← h, ex]
  obtain ⟨e, d0, _, _⟩ := contrast_of_unit powf a b ex ey x0 x1 x0 x1
  rw [e]
  rw [max_self, min_self] at *
  rw [div_self (by linarith), rnd_one]

/-! ## The two summation orders -/

theorem dbl_cx_srgb_a : dbl (1 / 32 / (7273313398203351 / 562949953421312)) = Fp.fin (43571977818987 / 18014398509481984) := by
  apply dbl_eq (-9) (-61) 5577213160830336 <;> norm_num [abs_lt]

theorem dbl_cx_srgb_b : dbl (1 / 64 / (7273313398203351 / 562949953421312)) = Fp.fin (43571977818987 / 36028797018963968) := by
  apply dbl_eq (-10) (-62) 5577213160830336 <;> norm_num [abs_lt]

theorem dbl_cx_red : dbl (43571977818987 / 18014398509481984 * (1914930561557935 / 9007199254740992)) = Fp.fin (2371431035985059 / 4611686018427387904) := by
  apply dbl_eq (-11) (-63) 4742862071970118 <;> norm_num [abs_lt]

theorem dbl_cx_blue : dbl (43571977818987 / 36028797018963968 * (5202558289538397 / 72057594037927936)) = Fp.fin (1610699160847801 / 18446744073709551616) := by
  apply dbl_eq (-14) (-66) 6442796643391204 <;> norm_num [abs_lt]

theorem dbl_cx_green : dbl (43571977818987 / 18014398509481984 * (6441948906990757 / 9007199254740992)) = Fp.fin (62325357072279 / 36028797018963968) := by
  apply dbl_eq (-10) (-62) 7977645705251712 <;> norm_num [abs_lt]

theorem dbl_cx_rb : dbl (2371431035985059 / 4611686018427387904 + 1610699160847801 / 18446744073709551616) = Fp.fin (2774105826197009 / 4611686018427387904) := by
  apply dbl_eq_tie (-11) (-63) 5548211652394018 <;> norm_num [abs_eq_abs]

theorem dbl_cx_rb_g : dbl (2774105826197009 / 4611686018427387904 + 62325357072279 / 36028797018963968) = Fp.fin (671984470715545 / 288230376151711744) := by
  apply dbl_eq_tie (-9) (-61) 5375875765724360 <;> norm_num [abs_eq_abs]

theorem dbl_cx_rg : dbl (2371431035985059 / 4611686018427387904 + 62325357072279 / 36028797018963968) = Fp.fin (2587269185309193 / 1152921504606846976) := by
  apply dbl_eq_tie (-9) (-61) 5174538370618386 <;> norm_num [abs_eq_abs]

theorem dbl_cx_rg_b : dbl (2587269185309193 / 1152921504606846976 + 1610699160847801 / 18446744073709551616) = Fp.fin (5375875765724361 / 2305843009213693952) := by
  apply dbl_eq (-9) (-61) 5375875765724361 <;> norm_num [abs_lt]

theorem dbl_sum_rg : dbl (1914930561557935 / 9007199254740992 + 6441948906990757 / 9007199254740992) = Fp.fin (2089219867137173 / 2251799813685248) := by
  apply dbl_eq (-1) (-53) 8356879468548692 <;> norm_num [abs_lt]

theorem fmul_comm (x y : Fp) : fmul x y = fmul y x := by
  cases x <;> cases y <;> simp [fmul, mul_comm, Bool.xor_comm]

theorem abs_rnd_sub_le {q : ℚ} (h0 : 0 ≤ q) (h1 : q < 1) :
    |rnd q - q| ≤ 1 / 18014398509481984 := by
  rcases eq_or_lt_of_le h0 with hz | hpos
  · rw [← hz, rnd_zero]; norm_num
  · have hlog : Int.log 2 q < 0 :=
      (Int.lt_zpow_iff_log_lt (b := 2) (by norm_num) hpos).mp (by simpa using h1)
    have hU : ulpExp 53 (-1022) q ≤ -53 := by unfold ulpExp; omega
    have hupos := two_zpow_pos (ulpExp 53 (-1022) q)
    have hule : (2 : ℚ) ^ ulpExp 53 (-1022) q ≤ 1 / 9007199254740992 := by
      have := two_zpow_mono hU
      have e : (2 : ℚ) ^ (-53 : ℤ) = 1 / 9007199254740992 := by norm_num
      rwa [e] at this
    have herr := abs_roundHalfEven_sub_le (q / 2 ^ ulpExp 53 (-1022) q)
    have e1 : rnd q - q =
        ((roundHalfEven (q / 2 ^ ulpExp 53 (-1022) q) : ℚ) - q / 2 ^ ulpExp 53 (-1022) q) *
          2 ^ ulpExp 53 (-1022) q := by
      rw [rnd, roundQ, if_pos h0, roundMag, sub_mul, div_mul_cancel₀ _ hupos.ne']
    rw [e1, abs_mul, abs_of_pos hupos]
    calc |(roundHalfEven (q / 2 ^ ulpExp 53 (-1022) q) : ℚ) - q / 2 ^ ulpExp 53 (-1022) q| *
          2 ^ ulpExp 53 (-1022) q
        ≤ 1 / 2 * (1 / 9007199254740992) :=
          mul_le_mul herr hule hupos.le (by norm_num)
      _ = 1 / 18014398509481984 := by norm_num

theorem rnd_sum_rb_add_lt : rnd (rnd (2126 / 10000) + rnd (722 / 10000)) + rnd (7152 / 10000) < 1 := by
  rw [rnd_of_dbl (by norm_num) (by norm_num) dbl_2126,
    rnd_of_dbl (by norm_num) (by norm_num) dbl_722,
    rnd_of_dbl (by norm_num) (by norm_num) dbl_7152,
    rnd_of_dbl (by norm_num) (by norm_num) dbl_sum_rb]
  norm_num

theorem rnd_sum_rg_add_lt : rnd (rnd (2126 / 10000) + rnd (7152 / 10000)) + rnd (722 / 10000) < 1 := by
  rw [rnd_of_dbl (by norm_num) (by norm_num) dbl_2126,
    rnd_of_dbl (by norm_num) (by norm_num) dbl_722,
    rnd_of_dbl (by norm_num) (by norm_num) dbl_7152,
    rnd_of_dbl (by norm_num) (by norm_num) dbl_sum_rg]
  norm_num

theorem sum_of_three_near {p1 p2 p3 c1 c2 c3 : ℚ} (h1 : 0 ≤ p1) (h2 : 0 ≤ p2) (h3 : 0 ≤ p3)
    (l1 : p1 ≤ c1) (l2 : p2 ≤ c2) (l3 : p3 ≤ c3) (hc : rnd (c1 + c2) + c3 < 1) :
    dbl (p1 + p2) = Fp.fin (rnd (p1 + p2)) ∧
    dbl (rnd (p1 + p2) + p3) = Fp.fin (rnd (rnd (p1 + p2) + p3)) ∧
    |rnd (rnd (p1 + p2) + p3) - (p1 + p2 + p3)| ≤ 1 / 9007199254740992 := by
  have s0 : 0 ≤ p1 + p2 := by linarith
  have t0 := rnd_nonneg s0
  have t1 : rnd (p1 + p2) ≤ rnd (c1 + c2) := rnd_mono (by linarith)
  have u0 : 0 ≤ rnd (p1 + p2) + p3 := by linarith
  have u1 : rnd (p1 + p2) + p3 < 1 := by linarith
  have s1 : p1 + p2 < 1 := by
    by_contra hcon
    have := one_le_rnd (not_lt.mp hcon)
    linarith
  have a1 := abs_rnd_sub_le s0 s1
  have a2 := abs_rnd_sub_le u0 u1
  refine ⟨dbl_small s0 (by linarith), dbl_small u0 (by linarith), ?_⟩
  have e : rnd (rnd (p1 + p2) + p3) - (p1 + p2 + p3) =
      (rnd (rnd (p1 + p2) + p3) - (rnd (p1 + p2) + p3)) + (rnd (p1 + p2) - (p1 + p2)) := by ring
  rw [e]
  calc |rnd (rnd (p1 + p2) + p3) - (rnd (p1 + p2) + p3) + (rnd (p1 + p2) - (p1 + p2))|
      ≤ |rnd (rnd (p1 + p2) + p3) - (rnd (p1 + p2) + p3)| + |rnd (p1 + p2) - (p1 + p2)| :=
        abs_add _ _
    _ ≤ 1 / 18014398509481984 + 1 / 18014398509481984 := add_le_add a2 a1
    _ = 1 / 9007199254740992 := by norm_num

theorem luminance_orders_near (powf : Fp → Fp → Fp) (hpow : PowfUnit powf) (c : GdkRGBA)
    (hc : normalized c = true) :
    ∃ x y, get_relative_luminance powf c = Fp.fin x ∧ relativeLuminance_spec powf c = Fp.fin y ∧
      |x - y| ≤ 1 / 4503599627370496 := by
  simp only [normalized, Bool.and_eq_true] at hc
  obtain ⟨⟨hr, hg⟩, hb⟩ := hc
  obtain ⟨r, er, r0, r1⟩ := inUnit_iff.mp hr
  obtain ⟨g, eg, g0, g1⟩ := inUnit_iff.mp hg
  obtain ⟨b, eb, b0, b1⟩ := inUnit_iff.mp hb
  obtain ⟨sr, esr, sr0, sr1⟩ := get_srgb_unit powf hpow r0 r1
  obtain ⟨sg, esg, sg0, sg1⟩ := get_srgb_unit powf hpow g0 g1
  obtain ⟨sb, esb, sb0, sb1⟩ := get_srgb_unit powf hpow b0 b1
  rw [← er] at esr
  rw [← eg] at esg
  rw [← eb] at esb
  obtain ⟨m1, a1, b1⟩ := mul_coefficient sr0 sr1 (k := 2126 / 10000) (by norm_num) (by norm_num)
  obtain ⟨m2, a2, b2⟩ := mul_coefficient sb0 sb1 (k := 722 / 10000) (by norm_num) (by norm_num)
  obtain ⟨m3, a3, b3⟩ := mul_coefficient sg0 sg1 (k := 7152 / 10000) (by norm_num) (by norm_num)
  obtain ⟨c1, c2, c3⟩ := sum_of_three_near a1 a2 a3 b1 b2 b3 rnd_sum_rb_add_lt
  obtain ⟨d1, d2, d3⟩ := sum_of_three_near a1 a3 a2 b1 b3 b2 rnd_sum_rg_add_lt
  refine ⟨rnd (rnd (rnd (sr * rnd (2126 / 10000)) + rnd (sb * rnd (722 / 10000))) +
      rnd (sg * rnd (7152 / 10000))),
    rnd (rnd (rnd (sr * rnd (2126 / 10000)) + rnd (sg * rnd (7152 / 10000))) +
      rnd (sb * rnd (722 / 10000))), ?_, ?_, ?_⟩
  · unfold get_relative_luminance
    rw [esr, esg, esb, dbl_small (q := 2126 / 10000) (by norm_num) (by norm_num),
      dbl_small (q := 722 / 10000) (by norm_num) (by norm_num),
      dbl_small (q := 7152 / 10000) (by norm_num) (by norm_num), m1, m2, m3]
    simp only [fadd, c1, c2]
  · unfold relativeLuminance_spec
    rw [esr, esg, esb, dbl_small (q := 2126 / 10000) (by norm_num) (by norm_num),
      dbl_small (q := 722 / 10000) (by norm_num) (by norm_num),
      dbl_small (q := 7152 / 10000) (by norm_num) (by norm_num),
      fmul_comm _ (Fp.fin sr), fmul_comm _ (Fp.fin sg), fmul_comm _ (Fp.fin sb), m1, m2, m3]
    simp only [fadd, d1, d2]
  · rw [abs_le] at c3 d3 ⊢
    constructor <;> linarith [c3.1, c3.2, d3.1, d3.2]
theorem get_srgb_inv_32 (powf : Fp → Fp → Fp) :
    get_srgb powf (Fp.fin (1 / 32)) = Fp.fin (43571977818987 / 18014398509481984) := by
  have h : (1 / 32 : ℚ) ≤ rnd (3928 / 100000) := by
    rw [rnd_of_dbl (by norm_num) (by norm_num) dbl_3928]; norm_num
  rw [get_srgb_linear powf h, rnd_of_dbl (by norm_num) (by norm_num) dbl_1292]
  exact dbl_cx_srgb_a

theorem get_srgb_inv_64 (powf : Fp → Fp → Fp) :
    get_srgb powf (Fp.fin (1 / 64)) = Fp.fin (43571977818987 / 36028797018963968) := by
  have h : (1 / 64 : ℚ) ≤ rnd (3928 / 100000) := by
    rw [rnd_of_dbl (by norm_num) (by norm_num) dbl_3928]; norm_num
  rw [get_srgb_linear powf h, rnd_of_dbl (by norm_num) (by norm_num) dbl_1292]
  exact dbl_cx_srgb_b

theorem fmul_fin (a b : ℚ) : fmul (Fp.fin a) (Fp.fin b) = dbl (a * b) := rfl

theorem fadd_fin (a b : ℚ) : fadd (Fp.fin a) (Fp.fin b) = dbl (a + b) := rfl

theorem luminance_dark (powf : Fp → Fp → Fp) :
    get_relative_luminance powf ⟨Fp.fin (1 / 32), Fp.fin (1 / 32), Fp.fin (1 / 64), Fp.fin 1⟩ =
      Fp.fin (671984470715545 / 288230376151711744) := by
  unfold get_relative_luminance
  dsimp only
  rw [get_srgb_inv_32, get_srgb_inv_64, dbl_2126, dbl_722, dbl_7152, fmul_fin, fmul_fin,
    fmul_fin, dbl_cx_red, dbl_cx_blue, dbl_cx_green, fadd_fin, dbl_cx_rb, fadd_fin,
    dbl_cx_rb_g]

theorem luminance_spec_dark (powf : Fp → Fp → Fp) :
    relativeLuminance_spec powf ⟨Fp.fin (1 / 32), Fp.fin (1 / 32), Fp.fin (1 / 64), Fp.fin 1⟩ =
      Fp.fin (5375875765724361 / 2305843009213693952) := by
  unfold relativeLuminance_spec
  dsimp only
  rw [get_srgb_inv_32, get_srgb_inv_64, dbl_2126, dbl_722, dbl_7152,
    fmul_comm (Fp.fin (1914930561557935 / 9007199254740992)),
    fmul_comm (Fp.fin (6441948906990757 / 9007199254740992)),
    fmul_comm (Fp.fin (5202558289538397 / 72057594037927936)), fmul_fin, fmul_fin,
    fmul_fin, dbl_cx_red, dbl_cx_blue, dbl_cx_green, fadd_fin, dbl_cx_rg, fadd_fin,
    dbl_cx_rg_b]

theorem luminance_reorder (powf : Fp → Fp → Fp) (c : GdkRGBA) :
    get_relative_luminance powf c =
      fadd
        (fadd (fmul (dbl (2126 / 10000)) (get_srgb powf c.red))
          (fmul (dbl (722 / 10000)) (get_srgb powf c.blue)))
        (fmul (dbl (7152 / 10000)) (get_srgb powf c.green)) := by
  unfold get_relative_luminance
  rw [fmul_comm (get_srgb powf c.red), fmul_comm (get_srgb powf c.blue),
    fmul_comm (get_srgb powf c.green)]

/-! ## The mid-gray background -/

theorem rnd_eq_near {q : ℚ} (e u m : ℤ) (r : ℚ) (hu : u = max e (-1022) - 52)
    (h1 : (2 : ℚ) ^ e ≤ q) (h2 : q < (2 : ℚ) ^ (e + 1)) (hm : |q / 2 ^ u - m| < 1 / 2)
    (hr : r = m * 2 ^ u) : rnd q = r :=
  rnd_eq e u m r hu h1 h2 (roundHalfEven_eq_of_abs_lt hm) hr

theorem rnd_eq_tie {q : ℚ} (e u m : ℤ) (r : ℚ) (hu : u = max e (-1022) - 52)
    (h1 : (2 : ℚ) ^ e ≤ q) (h2 : q < (2 : ℚ) ^ (e + 1)) (hm : |q / 2 ^ u - m| = 1 / 2)
    (hm2 : m % 2 = 0) (hr : r = m * 2 ^ u) : rnd q = r :=
  rnd_eq e u m r hu h1 h2 (roundHalfEven_eq_of_tie hm hm2) hr

theorem rnd_2126 : rnd (2126 / 10000) = 1914930561557935 / 9007199254740992 :=
  rnd_of_dbl (by norm_num) (by norm_num) dbl_2126

theorem rnd_722 : rnd (722 / 10000) = 5202558289538397 / 72057594037927936 :=
  rnd_of_dbl (by norm_num) (by norm_num) dbl_722

theorem rnd_7152 : rnd (7152 / 10000) = 6441948906990757 / 9007199254740992 :=
  rnd_of_dbl (by norm_num) (by norm_num) dbl_7152

theorem rnd_5 : rnd (5 / 100) = 3602879701896397 / 72057594037927936 :=
  rnd_of_dbl (by norm_num) (by norm_num) dbl_5

theorem rnd_one_add_5 : rnd (1 + rnd (5 / 100)) = 4728779608739021 / 4503599627370496 := by
  rw [rnd_5]
  exact rnd_of_dbl (by norm_num) (by norm_num) dbl_one_add_5

theorem rnd_gray_red : rnd (3 / 16 * (1914930561557935 / 9007199254740992)) = 5744791684673805 / 144115188075855872 := by
  apply rnd_eq_near (-5) (-57) 5744791684673805 <;> norm_num [abs_lt]

theorem rnd_gray_blue : rnd (3 / 16 * (5202558289538397 / 72057594037927936)) = 1950959358576899 / 144115188075855872 := by
  apply rnd_eq_tie (-7) (-59) 7803837434307596 <;> norm_num [abs_eq_abs]

theorem rnd_gray_green : rnd (3 / 16 * (6441948906990757 / 9007199254740992)) = 1207865420060767 / 9007199254740992 := by
  apply rnd_eq_near (-3) (-55) 4831461680243068 <;> norm_num [abs_lt]

theorem rnd_gray_rb : rnd (5744791684673805 / 144115188075855872 + 1950959358576899 / 144115188075855872) = 480984440203169 / 9007199254740992 := by
  apply rnd_eq_near (-5) (-57) 7695751043250704 <;> norm_num [abs_lt]

theorem rnd_gray_rbg : rnd (480984440203169 / 9007199254740992 + 1207865420060767 / 9007199254740992) = 3 / 16 := by
  apply rnd_eq_near (-3) (-55) 6755399441055744 <;> norm_num [abs_lt]

theorem rnd_gray_num : rnd (3 / 16 + 3602879701896397 / 72057594037927936) = 4278419646001971 / 18014398509481984 := by
  apply rnd_eq_tie (-3) (-55) 8556839292003942 <;> norm_num [abs_eq_abs]

theorem rnd_gray_black : rnd (4278419646001971 / 18014398509481984 / (3602879701896397 / 72057594037927936)) = 5348024557502463 / 1125899906842624 := by
  apply rnd_eq_near (2) (-50) 5348024557502463 <;> norm_num [abs_lt]

theorem rnd_gray_white : rnd (4728779608739021 / 4503599627370496 / (4278419646001971 / 18014398509481984)) = 4977662746041075 / 1125899906842624 := by
  apply rnd_eq_near (2) (-50) 4977662746041075 <;> norm_num [abs_lt]

theorem rnd_17_32 : rnd (17 / 32) = 17 / 32 := by
  apply rnd_eq_near (-1) (-53) 4785074604081152 <;> norm_num [abs_lt]

theorem rnd_17_16 : rnd (17 / 16) = 17 / 16 := by
  apply rnd_eq_near (0) (-52) 4785074604081152 <;> norm_num [abs_lt]

theorem flt_half_le {z : ℚ} (h0 : 1 / 2 ≤ z) (h1 : z ≤ 1) :
    ∃ x, flt z = Fp.fin x ∧ flt x = Fp.fin x ∧ 1 / 2 ≤ x ∧ x ≤ 1 := by
  obtain ⟨x, hx, hrep, _, hx1⟩ := flt_base (show (1 / 64 : ℚ) ≤ z by linarith) h1
  refine ⟨x, hx, hrep, ?_, hx1⟩
  have hb : |z| ≤ 2 ^ (127 : ℤ) := by
    rw [abs_of_nonneg (by linarith)]
    exact h1.trans (by norm_num)
  rw [flt_eq_fin hb] at hx
  have hxe : x = roundQ 24 (-126) z := (Fp.fin.inj hx).symm
  have l0 := roundQ_mono 24 (-126) (by norm_num) h0
  have r0 : roundQ 24 (-126) (1 / 2) = 1 / 2 := by
    have h := roundQ_zpow 24 (-126) (k := -1) (by norm_num) (by norm_num)
    have e : (2 : ℚ) ^ (-1 : ℤ) = 1 / 2 := by norm_num
    rwa [e] at h
  rw [r0] at l0
  rw [hxe]
  exact l0

theorem get_srgb_half (powf : Fp → Fp → Fp) (hh : PowfHalf powf) :
    ∃ r, get_srgb powf (Fp.fin (1 / 2)) = Fp.fin r ∧ 3 / 16 ≤ r ∧ r ≤ 1 := by
  have ht : rnd (3928 / 100000) < 1 / 2 := by
    rw [rnd_of_dbl (by norm_num) (by norm_num) dbl_3928]; norm_num
  obtain ⟨e, _, hhi⟩ := get_srgb_power powf (show (0 : ℚ) ≤ 1 / 2 by norm_num)
    (by norm_num) ht
  have ha := rnd_55_ge
  have hb : rnd (1055 / 1000) ≤ 17 / 16 := by
    have := rnd_mono (show (1055 / 1000 : ℚ) ≤ 17 / 16 by norm_num)
    rwa [rnd_17_16] at this
  have hb0 := rnd_1055_ge
  have hs : 17 / 32 ≤ rnd (1 / 2 + rnd (55 / 1000)) := by
    have := rnd_mono (show (17 / 32 : ℚ) ≤ 1 / 2 + rnd (55 / 1000) by linarith)
    rwa [rnd_17_32] at this
  have hq : 1 / 2 ≤ rnd (1 / 2 + rnd (55 / 1000)) / rnd (1055 / 1000) := by
    rw [le_div_iff₀ (by linarith)]; linarith
  have hz : 1 / 2 ≤ rnd (rnd (1 / 2 + rnd (55 / 1000)) / rnd (1055 / 1000)) := by
    have := rnd_mono hq
    have e2 : rnd (1 / 2) = 1 / 2 := by
      have h := rnd_zpow (k := -1) (by norm_num)
      have e : (2 : ℚ) ^ (-1 : ℤ) = 1 / 2 := by norm_num
      rwa [e] at h
    rwa [e2] at this
  obtain ⟨x, hx, hrep, hx0, hx1⟩ := flt_half_le hz hhi
  rw [e, hx]
  exact hh x hrep hx0 hx1

theorem luminance_gray (powf : Fp → Fp → Fp) (hh : PowfHalf powf) :
    ∃ l, get_relative_luminance powf gray = Fp.fin l ∧ 3 / 16 ≤ l ∧ l ≤ 1 := by
  obtain ⟨r, er, r0, r1⟩ := get_srgb_half powf hh
  have rn : (0 : ℚ) ≤ r := by linarith
  obtain ⟨e, _, l1⟩ := luminance_of_srgb powf gray (r := r) (g := r) (b := r) er er er
    rn r1 rn r1 rn r1
  refine ⟨_, e, ?_, l1⟩
  have k1 := rnd_nonneg (show (0 : ℚ) ≤ 2126 / 10000 by norm_num)
  have k2 := rnd_nonneg (show (0 : ℚ) ≤ 722 / 10000 by norm_num)
  have k3 := rnd_nonneg (show (0 : ℚ) ≤ 7152 / 10000 by norm_num)
  have p1 : rnd (3 / 16 * rnd (2126 / 10000)) ≤ rnd (r * rnd (2126 / 10000)) :=
    rnd_mono (mul_le_mul_of_nonneg_right r0 k1)
  have p2 : rnd (3 / 16 * rnd (722 / 10000)) ≤ rnd (r * rnd (722 / 10000)) :=
    rnd_mono (mul_le_mul_of_nonneg_right r0 k2)
  have p3 : rnd (3 / 16 * rnd (7152 / 10000)) ≤ rnd (r * rnd (7152 / 10000)) :=
    rnd_mono (mul_le_mul_of_nonneg_right r0 k3)
  have s1 := rnd_mono (add_le_add p1 p2)
  have s2 := rnd_mono (add_le_add s1 p3)
  rw [rnd_2126, rnd_722, rnd_7152] at s2
  rw [rnd_2126, rnd_722, rnd_7152]
  rw [rnd_gray_red, rnd_gray_blue, rnd_gray_green, rnd_gray_rb, rnd_gray_rbg] at s2
  exact s2

theorem contrast_gray (powf : Fp → Fp → Fp) (h1 : PowfOne powf) (hh : PowfHalf powf) :
    ∃ x y, get_contrast_level powf gray black = Fp.fin x ∧
      get_contrast_level powf gray white = Fp.fin y ∧ y < x ∧
      get_most_readable_color powf gray black white = black := by
  obtain ⟨l, el, l0, l1⟩ := luminance_gray powf hh
  have ln : (0 : ℚ) ≤ l := by linarith
  obtain ⟨ex, _, _, _⟩ := contrast_of_unit powf gray black el (luminance_black powf) ln l1
    le_rfl (by norm_num)
  obtain ⟨ey, _, _, _⟩ := contrast_of_unit powf gray white el (luminance_white powf h1) ln l1
    (by norm_num) le_rfl
  rw [max_eq_left ln, min_eq_right ln, zero_add, rnd_rnd] at ex
  rw [max_eq_right l1, min_eq_left l1] at ey
  have hc := rnd_5_ge
  have hn : 4278419646001971 / 18014398509481984 ≤ rnd (l + rnd (5 / 100)) := by
    have := rnd_mono (show 3 / 16 + rnd (5 / 100) ≤ l + rnd (5 / 100) by linarith)
    rwa [rnd_5, rnd_gray_num, ← rnd_5] at this
  have hnpos : (0 : ℚ) < rnd (l + rnd (5 / 100)) := lt_of_lt_of_le (by norm_num) hn
  have hx : 5348024557502463 / 1125899906842624 ≤
      rnd (rnd (l + rnd (5 / 100)) / rnd (5 / 100)) := by
    have hq : (4278419646001971 / 18014398509481984 : ℚ) /
        (3602879701896397 / 72057594037927936) ≤
        rnd (l + rnd (5 / 100)) / rnd (5 / 100) := by
      rw [← rnd_5]
      exact div_le_div_of_nonneg_right hn (by linarith)
    have := rnd_mono hq
    rwa [rnd_gray_black] at this
  have hy : rnd (rnd (1 + rnd (5 / 100)) / rnd (l + rnd (5 / 100))) ≤
      4977662746041075 / 1125899906842624 := by
    have hq : rnd (1 + rnd (5 / 100)) / rnd (l + rnd (5 / 100)) ≤
        (4728779608739021 / 4503599627370496 : ℚ) /
          (4278419646001971 / 18014398509481984) := by
      rw [rnd_one_add_5]
      exact div_le_div_of_nonneg_left (by norm_num) (by norm_num) hn
    have := rnd_mono hq
    rwa [rnd_gray_white] at this
  have hlt : rnd (rnd (1 + rnd (5 / 100)) / rnd (l + rnd (5 / 100))) <
      rnd (rnd (l + rnd (5 / 100)) / rnd (5 / 100)) := by
    refine lt_of_le_of_lt hy (lt_of_lt_of_le ?_ hx)
    norm_num
  refine ⟨_, _, ex, ey, hlt, ?_⟩
  unfold get_most_readable_color
  rw [ex, ey]
  simp [fgt, hlt]

theorem powfSquare_half : PowfHalf powfSquare := by
  intro x _ h0 h1
  have hx : 1 / 4 ≤ x * x := by nlinarith
  have hx1 : x * x ≤ 1 := by nlinarith
  have hb : |x * x| ≤ 2 ^ (127 : ℤ) := by
    rw [abs_of_nonneg (by linarith)]
    exact hx1.trans (by norm_num)
  have l0 := roundQ_mono 24 (-126) (by norm_num) hx
  have l1 := roundQ_mono 24 (-126) (by norm_num) hx1
  have r0 : roundQ 24 (-126) (1 / 4) = 1 / 4 := by
    have h := roundQ_zpow 24 (-126) (k := -2) (by norm_num) (by norm_num)
    have e : (2 : ℚ) ^ (-2 : ℤ) = 1 / 4 := by norm_num
    rwa [e] at h
  have r1 : roundQ 24 (-126) 1 = 1 := by
    simpa using roundQ_zpow 24 (-126) (k := 0) (by norm_num) (by norm_num)
  rw [r0] at l0
  rw [r1] at l1
  refine ⟨roundQ 24 (-126) (x * x), ?_, by linarith, l1⟩
  show flt (x * x) = _
  exact flt_eq_fin hb

/-! ## The product of the contrast levels against black and against white -/

theorem abs_rnd_sub_le_rel {q : ℚ} (h1 : 1 ≤ q) : |rnd q - q| ≤ q / 9007199254740992 := by
  have hpos : (0 : ℚ) < q := by linarith
  have hlog : 0 ≤ Int.log 2 q :=
    (Int.zpow_le_iff_le_log (b := 2) (by norm_num) hpos).mp (by simpa using h1)
  have hU : ulpExp 53 (-1022) q = Int.log 2 q - 52 := by
    unfold ulpExp
    have : max (Int.log 2 q) (-1022) = Int.log 2 q := max_eq_left (by omega)
    rw [this]; norm_num
  have hupos := two_zpow_pos (ulpExp 53 (-1022) q)
  have hule : (2 : ℚ) ^ ulpExp 53 (-1022) q ≤ q / 4503599627370496 := by
    rw [hU, zpow_sub₀ (by norm_num : (2 : ℚ) ≠ 0)]
    have e : (2 : ℚ) ^ (52 : ℤ) = 4503599627370496 := by norm_num
    rw [e]
    exact div_le_div_of_nonneg_right (zpow_log_le hpos) (by norm_num)
  have herr := abs_roundHalfEven_sub_le (q / 2 ^ ulpExp 53 (-1022) q)
  have e1 : rnd q - q =
      ((roundHalfEven (q / 2 ^ ulpExp 53 (-1022) q) : ℚ) - q / 2 ^ ulpExp 53 (-1022) q) *
        2 ^ ulpExp 53 (-1022) q := by
    rw [rnd, roundQ, if_pos hpos.le, roundMag, sub_mul, div_mul_cancel₀ _ hupos.ne']
  rw [e1, abs_mul, abs_of_pos hupos]
  calc |(roundHalfEven (q / 2 ^ ulpExp 53 (-1022) q) : ℚ) - q / 2 ^ ulpExp 53 (-1022) q| *
        2 ^ ulpExp 53 (-1022) q
      ≤ 1 / 2 * (q / 4503599627370496) :=
        mul_le_mul herr hule hupos.le (by norm_num)
    _ = q / 9007199254740992 := by ring

theorem product_near {n c k : ℚ} (hc : 0 < c) (hcn : c ≤ n) (hnk : n ≤ k)
    (hlo : 21 - 1 / 2 ^ 47 ≤ k / c * (1 - 1 / 9007199254740992) ^ 2)
    (hhi : k / c * (1 + 1 / 9007199254740992) ^ 2 ≤ 21 + 1 / 2 ^ 47) :
    |rnd (n / c) * rnd (k / n) - 21| ≤ 1 / 2 ^ 47 ∧ 1 ≤ rnd (n / c) ∧ 1 ≤ rnd (k / n) := by
  have hn : 0 < n := lt_of_lt_of_le hc hcn
  have ha : 1 ≤ n / c := by rw [le_div_iff₀ hc]; linarith
  have hb : 1 ≤ k / n := by rw [le_div_iff₀ hn]; linarith
  have ea := abs_rnd_sub_le_rel ha
  have eb := abs_rnd_sub_le_rel hb
  rw [abs_le] at ea eb
  have hab : n / c * (k / n) = k / c := by field_simp; ring
  have xlo : n / c * (1 - 1 / 9007199254740992) ≤ rnd (n / c) := by linarith [ea.1]
  have xhi : rnd (n / c) ≤ n / c * (1 + 1 / 9007199254740992) := by linarith [ea.2]
  have ylo : k / n * (1 - 1 / 9007199254740992) ≤ rnd (k / n) := by linarith [eb.1]
  have yhi : rnd (k / n) ≤ k / n * (1 + 1 / 9007199254740992) := by linarith [eb.2]
  have x1 := one_le_rnd ha
  have y1 := one_le_rnd hb
  have al : 0 ≤ n / c * (1 - 1 / 9007199254740992) :=
    mul_nonneg (by linarith) (by norm_num)
  have bl : 0 ≤ k / n * (1 - 1 / 9007199254740992) :=
    mul_nonneg (by linarith) (by norm_num)
  have plo : n / c * (1 - 1 / 9007199254740992) * (k / n * (1 - 1 / 9007199254740992)) ≤
      rnd (n / c) * rnd (k / n) := mul_le_mul xlo ylo bl (by linarith)
  have phi : rnd (n / c) * rnd (k / n) ≤
      n / c * (1 + 1 / 9007199254740992) * (k / n * (1 + 1 / 9007199254740992)) :=
    mul_le_mul xhi yhi (by linarith) (le_trans (by linarith) xhi)
  have e1 : n / c * (1 - 1 / 9007199254740992) * (k / n * (1 - 1 / 9007199254740992)) =
      k / c * (1 - 1 / 9007199254740992) ^ 2 := by rw [← hab]; ring
  have e2 : n / c * (1 + 1 / 9007199254740992) * (k / n * (1 + 1 / 9007199254740992)) =
      k / c * (1 + 1 / 9007199254740992) ^ 2 := by rw [← hab]; ring
  rw [e1] at plo
  rw [e2] at phi
  refine ⟨?_, x1, y1⟩
  rw [abs_le]
  constructor <;> linarith

theorem contrast_black_white_of (powf : Fp → Fp → Fp) (h1 : PowfOne powf) (bg : GdkRGBA) {l : ℚ}
    (el : get_relative_luminance powf bg = Fp.fin l) (l0 : 0 ≤ l) (l1 : l ≤ 1) :
    get_contrast_level powf bg black =
      Fp.fin (rnd (rnd (l + rnd (5 / 100)) / rnd (5 / 100))) ∧
    get_contrast_level powf bg white =
      Fp.fin (rnd (rnd (1 + rnd (5 / 100)) / rnd (l + rnd (5 / 100)))) ∧
    rnd (5 / 100) ≤ rnd (l + rnd (5 / 100)) ∧
    rnd (l + rnd (5 / 100)) ≤ rnd (1 + rnd (5 / 100)) := by
  obtain ⟨ex, _, dx, _⟩ := contrast_of_unit powf bg black el (luminance_black powf) l0 l1
    le_rfl (by norm_num)
  obtain ⟨ey, _, dy, _⟩ := contrast_of_unit powf bg white el (luminance_white powf h1) l0 l1
    (by norm_num) le_rfl
  rw [max_eq_left l0, min_eq_right l0, zero_add, rnd_rnd] at ex dx
  rw [max_eq_right l1, min_eq_left l1] at ey dy
  exact ⟨ex, ey, dx, dy⟩

theorem best_contrast_aux (powf : Fp → Fp → Fp) (h1 : PowfOne powf) (hu : PowfUnit powf)
    (bg : GdkRGBA) (hbg : normalized bg = true) :
    ∃ x y z, get_contrast_level powf bg black = Fp.fin x ∧
      get_contrast_level powf bg white = Fp.fin y ∧ |x * y - 21| ≤ 1 / 2 ^ 47 ∧
      get_contrast_level powf bg (get_best_foreground_color powf bg) = Fp.fin z ∧
      z = max x y ∧ 21 - 1 / 2 ^ 47 ≤ z * z ∧ 458 / 100 ≤ z := by
  obtain ⟨l, el, l0, l1⟩ := luminance_unit powf hu bg hbg
  obtain ⟨ex, ey, hcn, hnk⟩ := contrast_black_white_of powf h1 bg el l0 l1
  have hc := rnd_5_ge
  obtain ⟨hprod, x1, y1⟩ := product_near (c := rnd (5 / 100)) (n := rnd (l + rnd (5 / 100)))
    (k := rnd (1 + rnd (5 / 100))) (by linarith) hcn hnk
    (by rw [rnd_one_add_5, rnd_5]; norm_num) (by rw [rnd_one_add_5, rnd_5]; norm_num)
  have hz : get_contrast_level powf bg (get_best_foreground_color powf bg) =
      Fp.fin (max (rnd (rnd (l + rnd (5 / 100)) / rnd (5 / 100)))
        (rnd (rnd (1 + rnd (5 / 100)) / rnd (l + rnd (5 / 100))))) := by
    unfold get_best_foreground_color get_most_readable_color
    rw [ex, ey]
    by_cases h : rnd (rnd (1 + rnd (5 / 100)) / rnd (l + rnd (5 / 100))) <
        rnd (rnd (l + rnd (5 / 100)) / rnd (5 / 100))
    · have : fgt (Fp.fin (rnd (rnd (l + rnd (5 / 100)) / rnd (5 / 100))))
          (Fp.fin (rnd (rnd (1 + rnd (5 / 100)) / rnd (l + rnd (5 / 100))))) = true := by
        simp [fgt, h]
      rw [this, if_pos rfl, ex, max_eq_left h.le]
    · have : fgt (Fp.fin (rnd (rnd (l + rnd (5 / 100)) / rnd (5 / 100))))
          (Fp.fin (rnd (rnd (1 + rnd (5 / 100)) / rnd (l + rnd (5 / 100))))) = false := by
        simp [fgt, h]
      rw [this, if_neg (by simp), ey, max_eq_right (not_lt.mp h)]
  refine ⟨_, _, _, ex, ey, hprod, hz, rfl, ?_, ?_⟩
  · rw [abs_le] at hprod
    have hx := le_max_left (rnd (rnd (l + rnd (5 / 100)) / rnd (5 / 100)))
      (rnd (rnd (1 + rnd (5 / 100)) / rnd (l + rnd (5 / 100))))
    have hy := le_max_right (rnd (rnd (l + rnd (5 / 100)) / rnd (5 / 100)))
      (rnd (rnd (1 + rnd (5 / 100)) / rnd (l + rnd (5 / 100))))
    have := mul_le_mul hx hy (by linarith) (by linarith)
    linarith [hprod.1]
  · rw [abs_le] at hprod
    have hx := le_max_left (rnd (rnd (l + rnd (5 / 100)) / rnd (5 / 100)))
      (rnd (rnd (1 + rnd (5 / 100)) / rnd (l + rnd (5 / 100))))
    have hy := le_max_right (rnd (rnd (l + rnd (5 / 100)) / rnd (5 / 100)))
      (rnd (rnd (1 + rnd (5 / 100)) / rnd (l + rnd (5 / 100))))
    have hm := mul_le_mul hx hy (by linarith) (by linarith)
    by_contra hcon
    have hlt := not_le.mp hcon
    have hz0 : 0 ≤ max (rnd (rnd (l + rnd (5 / 100)) / rnd (5 / 100)))
        (rnd (rnd (1 + rnd (5 / 100)) / rnd (l + rnd (5 / 100)))) := by linarith
    have hsq := mul_le_mul hlt.le hlt.le hz0 (by norm_num)
    have h21 : (21 : ℚ) - 1 / 2 ^ 47 ≤ 458 / 100 * (458 / 100) := by linarith [hprod.1]
    norm_num at h21

theorem rnd_dark_num : rnd (671984470715545 / 288230376151711744 + 3602879701896397 / 72057594037927936) = 3770875819575283 / 72057594037927936 := by
  apply rnd_eq_tie (-5) (-57) 7541751639150566 <;> norm_num [abs_eq_abs]

theorem rnd_dark_black : rnd (3770875819575283 / 72057594037927936 / (3602879701896397 / 72057594037927936)) = 4713594774469103 / 4503599627370496 := by
  apply rnd_eq_near (0) (-52) 4713594774469103 <;> norm_num [abs_lt]

theorem rnd_dark_white : rnd (4728779608739021 / 4503599627370496 / (3770875819575283 / 72057594037927936)) = 5647634953471605 / 281474976710656 := by
  apply rnd_eq_near (4) (-48) 5647634953471605 <;> norm_num [abs_lt]

theorem contrast_dark (powf : Fp → Fp → Fp) (h1 : PowfOne powf) :
    get_contrast_level powf ⟨Fp.fin (1 / 32), Fp.fin (1 / 32), Fp.fin (1 / 64), Fp.fin 1⟩ black =
      Fp.fin (4713594774469103 / 4503599627370496) ∧
    get_contrast_level powf ⟨Fp.fin (1 / 32), Fp.fin (1 / 32), Fp.fin (1 / 64), Fp.fin 1⟩ white =
      Fp.fin (5647634953471605 / 281474976710656) := by
  obtain ⟨ex, ey, _, _⟩ := contrast_black_white_of powf h1 _ (luminance_dark powf)
    (by norm_num) (by norm_num)
  rw [rnd_5, rnd_dark_num, rnd_dark_black] at ex
  rw [rnd_one_add_5, rnd_5, rnd_dark_num, rnd_dark_white] at ey
  exact ⟨ex, ey⟩

/-! ## Monotonicity of `get_srgb` and the threshold -/

theorem root5Aux_pow_le (n : ℕ) : ∀ i r : ℕ, r ^ 5 ≤ n → (root5Aux n i r) ^ 5 ≤ n := by
  intro i
  induction i with
  | zero => intro r h; exact h
  | succ i ih =>
    intro r h
    unfold root5Aux
    split_ifs with hc
    · exact ih _ hc
    · exact ih _ h

theorem root5_pow_le (n : ℕ) : (root5 n) ^ 5 ≤ n :=
  root5Aux_pow_le n _ 0 (by simp)

theorem powfIdeal_le {x u : ℚ} (hx : 0 ≤ x) (hu : 0 ≤ u) (hu1 : u ≤ 1)
    (hrep : flt u = Fp.fin u) (h : x ^ 12 ≤ u ^ 5) (y : Fp) :
    ∃ r, powfIdeal (Fp.fin x) y = Fp.fin r ∧ 0 ≤ r ∧ r ≤ u := by
  have hn : 0 ≤ x ^ 12 * (2 ^ 160) ^ 5 := by positivity
  have h1 : ((root5 ⌊x ^ 12 * (2 ^ 160) ^ 5⌋₊ : ℕ) : ℚ) ^ 5 ≤ x ^ 12 * (2 ^ 160) ^ 5 := by
    have := root5_pow_le ⌊x ^ 12 * (2 ^ 160) ^ 5⌋₊
    have h2 : ((root5 ⌊x ^ 12 * (2 ^ 160) ^ 5⌋₊ : ℕ) : ℚ) ^ 5 ≤ (⌊x ^ 12 * (2 ^ 160) ^ 5⌋₊ : ℚ) := by
      rw [← Nat.cast_pow]
      exact Nat.cast_le.mpr this
    exact h2.trans (Nat.floor_le hn)
  have hq0 : (0 : ℚ) ≤ (root5 ⌊x ^ 12 * (2 ^ 160) ^ 5⌋₊ : ℚ) / 2 ^ 160 := by positivity
  have hq5 : ((root5 ⌊x ^ 12 * (2 ^ 160) ^ 5⌋₊ : ℚ) / 2 ^ 160) ^ 5 ≤ u ^ 5 := by
    rw [div_pow]
    rw [div_le_iff₀ (by positivity)]
    exact h1.trans (mul_le_mul_of_nonneg_right h (by positivity))
  have hq : (root5 ⌊x ^ 12 * (2 ^ 160) ^ 5⌋₊ : ℚ) / 2 ^ 160 ≤ u :=
    le_of_pow_le_pow_left₀ (by norm_num) hu hq5
  have hb : |(root5 ⌊x ^ 12 * (2 ^ 160) ^ 5⌋₊ : ℚ) / 2 ^ 160| ≤ 2 ^ (127 : ℤ) := by
    rw [abs_of_nonneg hq0]
    exact (hq.trans hu1).trans (by norm_num)
  have hbu : |u| ≤ 2 ^ (127 : ℤ) := by
    rw [abs_of_nonneg hu]
    exact hu1.trans (by norm_num)
  have hru : roundQ 24 (-126) u = u := by
    rw [flt_eq_fin hbu] at hrep
    exact Fp.fin.inj hrep
  have r0 : roundQ 24 (-126) 0 = 0 := by simp [roundQ, roundMag_zero]
  have l0 := roundQ_mono 24 (-126) (by norm_num) hq0
  have l1 := roundQ_mono 24 (-126) (by norm_num) hq
  rw [r0] at l0
  rw [hru] at l1
  refine ⟨roundQ 24 (-126) ((root5 ⌊x ^ 12 * (2 ^ 160) ^ 5⌋₊ : ℚ) / 2 ^ 160), ?_, l0, l1⟩
  show (if 0 ≤ x then flt ((root5 ⌊x ^ 12 * (2 ^ 160) ^ 5⌋₊ : ℚ) / 2 ^ 160) else Fp.nan) = _
  rw [if_pos hx, flt_eq_fin hb]

theorem rnd_3928 : rnd (3928 / 100000) = 5660844587619619 / 144115188075855872 :=
  rnd_of_dbl (by norm_num) (by norm_num) dbl_3928

theorem rnd_1292 : rnd (1292 / 100) = 7273313398203351 / 562949953421312 :=
  rnd_of_dbl (by norm_num) (by norm_num) dbl_1292

theorem rnd_55 : rnd (55 / 1000) = 7926335344172073 / 144115188075855872 :=
  rnd_of_dbl (by norm_num) (by norm_num) dbl_55

theorem rnd_1055 : rnd (1055 / 1000) = 4751297606875873 / 4503599627370496 :=
  rnd_of_dbl (by norm_num) (by norm_num) dbl_1055

theorem rnd_below_srgb : rnd (1287 / 32768 / (7273313398203351 / 562949953421312)) = 7009641931629533 / 2305843009213693952 := by
  apply rnd_eq_near (-9) (-61) 7009641931629533 <;> norm_num [abs_lt]

theorem rnd_above_sum : rnd (5149 / 131072 + 7926335344172073 / 144115188075855872) = 1698465089448837 / 18014398509481984 := by
  apply rnd_eq_tie (-4) (-56) 6793860357795348 <;> norm_num [abs_eq_abs]

theorem rnd_above_base : rnd (1698465089448837 / 18014398509481984 / (4751297606875873 / 4503599627370496)) = 3219839032130497 / 36028797018963968 := by
  apply rnd_eq_near (-4) (-56) 6439678064260994 <;> norm_num [abs_lt]

theorem flt_above_base : flt (3219839032130497 / 36028797018963968) = Fp.fin (11994835 / 134217728) := by
  apply flt_eq (-4) (-27) 11994835 <;> norm_num [abs_lt]

theorem flt_bound : flt (1632021 / 536870912) = Fp.fin (1632021 / 536870912) := by
  apply flt_eq (-9) (-32) 13056168 <;> norm_num [abs_lt]

theorem rnd_below_red : rnd (7009641931629533 / 2305843009213693952 * (1914930561557935 / 9007199254740992)) = 5960999498657755 / 9223372036854775808 := by
  apply rnd_eq_near (-11) (-63) 5960999498657755 <;> norm_num [abs_lt]

theorem rnd_bound_red : rnd (1632021 / 536870912 * (1914930561557935 / 9007199254740992)) = 1490214772226497 / 2305843009213693952 := by
  apply rnd_eq_near (-11) (-63) 5960859088905988 <;> norm_num [abs_lt]

theorem get_srgb_below (powf : Fp → Fp → Fp) :
    get_srgb powf (Fp.fin (1287 / 32768)) =
      Fp.fin (7009641931629533 / 2305843009213693952) := by
  have h : (1287 / 32768 : ℚ) ≤ rnd (3928 / 100000) := by rw [rnd_3928]; norm_num
  rw [get_srgb_linear powf h, rnd_1292, dbl_small (by norm_num) (by norm_num), rnd_below_srgb]

theorem get_srgb_above (powf : Fp → Fp → Fp) :
    get_srgb powf (Fp.fin (5149 / 131072)) =
      powf (Fp.fin (11994835 / 134217728)) (toFloat (dbl (24 / 10))) := by
  have h : rnd (3928 / 100000) < (5149 / 131072 : ℚ) := by rw [rnd_3928]; norm_num
  obtain ⟨e, _, _⟩ := get_srgb_power powf (show (0 : ℚ) ≤ 5149 / 131072 by norm_num)
    (by norm_num) h
  rw [e, rnd_55, rnd_1055, rnd_above_sum, rnd_above_base, flt_above_base]

theorem get_srgb_drop (powf : Fp → Fp → Fp)
    (h : ∃ r, powf (Fp.fin (11994835 / 134217728)) (toFloat (dbl (24 / 10))) = Fp.fin r ∧
      0 ≤ r ∧ r ≤ 1632021 / 536870912) :
    fgt (get_srgb powf (Fp.fin (1287 / 32768))) (get_srgb powf (Fp.fin (5149 / 131072))) = true ∧
    fgt (get_relative_luminance powf ⟨Fp.fin (1287 / 32768), Fp.fin 0, Fp.fin 0, Fp.fin 1⟩)
      (get_relative_luminance powf ⟨Fp.fin (5149 / 131072), Fp.fin 0, Fp.fin 0, Fp.fin 1⟩)
      = true := by
  obtain ⟨r, er, r0, r1⟩ := h
  have e2 : get_srgb powf (Fp.fin (5149 / 131072)) = Fp.fin r := by
    rw [get_srgb_above, er]
  constructor
  · rw [get_srgb_below, e2]
    have : r < 7009641931629533 / 2305843009213693952 := lt_of_le_of_lt r1 (by norm_num)
    simp [fgt, this]
  · obtain ⟨l1, _, _⟩ := luminance_of_srgb powf
      ⟨Fp.fin (1287 / 32768), Fp.fin 0, Fp.fin 0, Fp.fin 1⟩ (get_srgb_below powf)
      (get_srgb_zero powf) (get_srgb_zero powf) (by norm_num) (by norm_num) le_rfl
      (by norm_num) le_rfl (by norm_num)
    obtain ⟨l2, _, _⟩ := luminance_of_srgb powf
      ⟨Fp.fin (5149 / 131072), Fp.fin 0, Fp.fin 0, Fp.fin 1⟩ e2
      (get_srgb_zero powf) (get_srgb_zero powf) r0 (r1.trans (by norm_num)) le_rfl
      (by norm_num) le_rfl (by norm_num)
    rw [l1, l2]
    simp only [zero_mul, rnd_zero, add_zero, rnd_rnd]
    have k1 := rnd_nonneg (show (0 : ℚ) ≤ 2126 / 10000 by norm_num)
    have hle : rnd (r * rnd (2126 / 10000)) ≤
        rnd (1632021 / 536870912 * rnd (2126 / 10000)) :=
      rnd_mono (mul_le_mul_of_nonneg_right r1 k1)
    rw [rnd_2126] at hle ⊢
    rw [rnd_bound_red] at hle
    rw [rnd_below_red]
    have : rnd (r * (1914930561557935 / 9007199254740992)) <
        5960999498657755 / 9223372036854775808 := lt_of_le_of_lt hle (by norm_num)
    simp [fgt, this]

theorem powfIdeal_above :
    ∃ r, powfIdeal (Fp.fin (11994835 / 134217728)) (toFloat (dbl (24 / 10))) = Fp.fin r ∧
      0 ≤ r ∧ r ≤ 1632021 / 536870912 :=
  powfIdeal_le (by norm_num) (by norm_num) (by norm_num) flt_bound (by norm_num) _

theorem fle_threshold (q : ℚ) :
    fle (Fp.fin q) (dbl (3928 / 100000)) = decide (q ≤ rnd (3928 / 100000)) := by
  rw [dbl_small (by norm_num) (by norm_num)]
  rfl

theorem fle_dip_end (q : ℚ) :
    fle (dbl (3929 / 100000)) (Fp.fin q) = decide (rnd (3929 / 100000) ≤ q) := by
  rw [dbl_small (by norm_num) (by norm_num)]
  rfl

theorem fle_trans {a b c : Fp} (h1 : fle a b = true) (h2 : fle b c = true) :
    fle a c = true := by
  cases a <;> cases b <;> cases c <;> simp_all [fle]
  case inf.inf.inf l m n => cases l <;> cases m <;> cases n <;> simp_all
  case fin.fin.fin x y z => exact le_trans h1 h2

theorem get_srgb_mono_linear (powf : Fp → Fp → Fp) {p q : ℚ} (h0 : 0 ≤ p) (hpq : p ≤ q)
    (hs : q ≤ rnd (3928 / 100000)) :
    get_srgb powf (Fp.fin p) = Fp.fin (rnd (p / rnd (1292 / 100))) ∧
    get_srgb powf (Fp.fin q) = Fp.fin (rnd (q / rnd (1292 / 100))) ∧
    rnd (p / rnd (1292 / 100)) ≤ rnd (q / rnd (1292 / 100)) ∧
    rnd (q / rnd (1292 / 100)) ≤ rnd (rnd (3928 / 100000) / rnd (1292 / 100)) := by
  have hd := rnd_1292_ge
  have ht := rnd_le_one (show (3928 / 100000 : ℚ) ≤ 1 by norm_num)
  have hp : p ≤ rnd (3928 / 100000) := hpq.trans hs
  have b1 : p / rnd (1292 / 100) ≤ q / rnd (1292 / 100) :=
    div_le_div_of_nonneg_right hpq (by linarith)
  have b3 : q / rnd (1292 / 100) ≤ rnd (3928 / 100000) / rnd (1292 / 100) :=
    div_le_div_of_nonneg_right hs (by linarith)
  have b0 : 0 ≤ p / rnd (1292 / 100) := div_nonneg h0 (by linarith)
  have b2 : q / rnd (1292 / 100) ≤ 1 := by
    rw [div_le_one (by linarith)]; linarith
  refine ⟨?_, ?_, rnd_mono b1, rnd_mono b3⟩
  · rw [get_srgb_linear powf hp, dbl_small b0 (by linarith)]
  · rw [get_srgb_linear powf hs, dbl_small (b0.trans b1) (by linarith)]

theorem get_srgb_mono_power (powf : Fp → Fp → Fp) (hm : PowfMono powf) {p q : ℚ} (h0 : 0 ≤ p)
    (hpq : p ≤ q) (h1 : q ≤ 1) (hs : rnd (3928 / 100000) < p) :
    fle (get_srgb powf (Fp.fin p)) (get_srgb powf (Fp.fin q)) = true := by
  have hq : rnd (3928 / 100000) < q := lt_of_lt_of_le hs hpq
  obtain ⟨e1, lo1, hi1⟩ := get_srgb_power powf h0 (hpq.trans h1) hs
  obtain ⟨e2, lo2, hi2⟩ := get_srgb_power powf (h0.trans hpq) h1 hq
  have hb := rnd_1055_ge
  have hz : rnd (rnd (p + rnd (55 / 1000)) / rnd (1055 / 1000)) ≤
      rnd (rnd (q + rnd (55 / 1000)) / rnd (1055 / 1000)) :=
    rnd_mono (div_le_div_of_nonneg_right (rnd_mono (by linarith)) (by linarith))
  obtain ⟨x, hx, xrep, x0, x1⟩ := flt_base lo1 hi1
  obtain ⟨y, hy, yrep, y0, y1⟩ := flt_base lo2 hi2
  have hxy : x ≤ y := by
    have b1 : |rnd (rnd (p + rnd (55 / 1000)) / rnd (1055 / 1000))| ≤ 2 ^ (127 : ℤ) := by
      rw [abs_of_nonneg (by linarith)]
      exact hi1.trans (by norm_num)
    have b2 : |rnd (rnd (q + rnd (55 / 1000)) / rnd (1055 / 1000))| ≤ 2 ^ (127 : ℤ) := by
      rw [abs_of_nonneg (by linarith)]
      exact hi2.trans (by norm_num)
    rw [flt_eq_fin b1] at hx
    rw [flt_eq_fin b2] at hy
    rw [← Fp.fin.inj hx, ← Fp.fin.inj hy]
    exact roundQ_mono 24 (-126) (by norm_num) hz
  rw [e1, e2, hx, hy]
  exact hm x y xrep yrep x0 hxy y1

theorem rnd_3929 : rnd (3929 / 100000) = 5662285739500377 / 144115188075855872 := by
  apply rnd_eq_near (-5) (-57) 5662285739500377 <;> norm_num [abs_lt]

theorem rnd_linear_top : rnd (5660844587619619 / 144115188075855872 / (7273313398203351 / 562949953421312)) = 7010333854637299 / 2305843009213693952 := by
  apply rnd_eq_near (-9) (-61) 7010333854637299 <;> norm_num [abs_lt]

theorem rnd_dip_sum : rnd (5662285739500377 / 144115188075855872 + 7926335344172073 / 144115188075855872) = 6794310541836225 / 72057594037927936 := by
  apply rnd_eq_near (-4) (-56) 6794310541836225 <;> norm_num [abs_lt]

theorem rnd_dip_base : rnd (6794310541836225 / 72057594037927936 / (4751297606875873 / 4503599627370496)) = 6440104778991683 / 72057594037927936 := by
  apply rnd_eq_near (-4) (-56) 6440104778991683 <;> norm_num [abs_lt]

theorem flt_dip_base : flt (6440104778991683 / 72057594037927936) = Fp.fin (5997815 / 67108864) := by
  apply flt_eq (-4) (-27) 11995630 <;> norm_num [abs_lt]

theorem rnd_3928_lt_3929 : rnd (3928 / 100000) < rnd (3929 / 100000) := by
  rw [rnd_3928, rnd_3929]; norm_num

theorem powfCross_iff (powf : Fp → Fp → Fp) :
    PowfCross powf ↔
      fle (Fp.fin (rnd (rnd (3928 / 100000) / rnd (1292 / 100))))
        (get_srgb powf (Fp.fin (rnd (3929 / 100000)))) = true := by
  have hc0 : (0 : ℚ) ≤ rnd (3929 / 100000) := rnd_nonneg (by norm_num)
  have hc1 : rnd (3929 / 100000) ≤ 1 := rnd_le_one (by norm_num)
  have ht0 : (0 : ℚ) ≤ rnd (3928 / 100000) := rnd_nonneg (by norm_num)
  obtain ⟨_, e2, _, _⟩ := get_srgb_mono_linear powf ht0 le_rfl le_rfl
  have e3 : fdiv (dbl (3928 / 100000)) (dbl (1292 / 100)) =
      Fp.fin (rnd (rnd (3928 / 100000) / rnd (1292 / 100))) := by
    rw [← e2, get_srgb, fle_threshold, decide_eq_true le_rfl, if_pos rfl,
      dbl_small (q := 3928 / 100000) (by norm_num) (by norm_num)]
  obtain ⟨e4, _, _⟩ := get_srgb_power powf hc0 hc1 rnd_3928_lt_3929
  obtain ⟨e5, _, _⟩ := @srgb_base (rnd (3929 / 100000)) hc0 hc1
  unfold PowfCross
  rw [e3, dbl_small (q := 3929 / 100000) (by norm_num) (by norm_num), e5, e4]

theorem get_srgb_mono_cross (powf : Fp → Fp → Fp) (hm : PowfMono powf) (hc : PowfCross powf)
    {p q : ℚ} (h0 : 0 ≤ p) (h1 : q ≤ 1) (hp : p ≤ rnd (3928 / 100000))
    (hq : rnd (3929 / 100000) ≤ q) :
    fle (get_srgb powf (Fp.fin p)) (get_srgb powf (Fp.fin q)) = true := by
  obtain ⟨e1, _, hle, _⟩ := get_srgb_mono_linear powf h0 hp le_rfl
  have hc0 : (0 : ℚ) ≤ rnd (3929 / 100000) := rnd_nonneg (by norm_num)
  have h2 := get_srgb_mono_power powf hm hc0 hq h1 rnd_3928_lt_3929
  have h3 := (powfCross_iff powf).mp hc
  rw [e1]
  have h4 : fle (Fp.fin (rnd (p / rnd (1292 / 100))))
      (Fp.fin (rnd (rnd (3928 / 100000) / rnd (1292 / 100)))) = true := by
    simp [fle, hle]
  exact fle_trans h4 (fle_trans h3 h2)

theorem outsideDip_fin {x y : Fp} {p q : ℚ} (hx : x = Fp.fin p) (hy : y = Fp.fin q)
    (h : outsideDip x y = true) :
    p ≤ q ∧ (q ≤ rnd (3928 / 100000) ∨ rnd (3928 / 100000) < p ∨
      (p ≤ rnd (3928 / 100000) ∧ rnd (3929 / 100000) ≤ q)) := by
  subst hx hy
  unfold outsideDip at h
  rw [fle_threshold, fle_threshold, fle_dip_end] at h
  simp only [Bool.and_eq_true, Bool.not_eq_true', Bool.and_eq_false_iff, decide_eq_true_eq,
    decide_eq_false_iff_not, Bool.not_eq_false', not_le] at h
  obtain ⟨hpq, hcase⟩ := h
  have hpq' : p ≤ q := by simpa [fle] using hpq
  refine ⟨hpq', ?_⟩
  rcases hcase with (h1 | h1) | h1
  · exact Or.inr (Or.inl h1)
  · exact Or.inl h1
  · by_cases hp : p ≤ rnd (3928 / 100000)
    · exact Or.inr (Or.inr ⟨hp, h1⟩)
    · exact Or.inr (Or.inl (not_le.mp hp))

theorem get_srgb_mono_aux (powf : Fp → Fp → Fp) (hm : PowfMono powf) (hc : PowfCross powf)
    {x y : Fp} (hx : inUnit x = true) (hy : inUnit y = true) (h : outsideDip x y = true) :
    fle (get_srgb powf x) (get_srgb powf y) = true := by
  obtain ⟨p, ep, p0, _⟩ := inUnit_iff.mp hx
  obtain ⟨q, eq, _, q1⟩ := inUnit_iff.mp hy
  obtain ⟨hpq, hs⟩ := outsideDip_fin ep eq h
  rw [ep, eq]
  rcases hs with hs | hs | hs
  · obtain ⟨e1, e2, hle, _⟩ := get_srgb_mono_linear powf p0 hpq hs
    rw [e1, e2]
    simp [fle, hle]
  · exact get_srgb_mono_power powf hm p0 hpq q1 hs
  · exact get_srgb_mono_cross powf hm hc p0 q1 hs.1 hs.2

theorem srgb_le_of_outsideDip (powf : Fp → Fp → Fp) (hu : PowfUnit powf) (hm : PowfMono powf)
    (hc : PowfCross powf) {x y : Fp} (hx : inUnit x = true) (hy : inUnit y = true)
    (h : outsideDip x y = true) :
    ∃ s t, get_srgb powf x = Fp.fin s ∧ get_srgb powf y = Fp.fin t ∧ 0 ≤ s ∧ s ≤ t ∧ t ≤ 1 := by
  have hle := get_srgb_mono_aux powf hm hc hx hy h
  obtain ⟨p, ep, p0, p1⟩ := inUnit_iff.mp hx
  obtain ⟨q, eq, q0, q1⟩ := inUnit_iff.mp hy
  obtain ⟨s, es, s0, s1⟩ := get_srgb_unit powf hu p0 p1
  obtain ⟨t, et, t0, t1⟩ := get_srgb_unit powf hu q0 q1
  subst ep eq
  rw [es, et] at hle
  have hst : s ≤ t := by simpa [fle] using hle
  exact ⟨s, t, es, et, s0, hst, t1⟩

theorem luminance_mono_aux (powf : Fp → Fp → Fp) (hu : PowfUnit powf) (hm : PowfMono powf)
    (hx : PowfCross powf) (c d : GdkRGBA) (hc : normalized c = true)
    (hd : normalized d = true) (h : channelsUp c d = true) :
    fle (get_relative_luminance powf c) (get_relative_luminance powf d) = true := by
  simp only [normalized, Bool.and_eq_true] at hc hd
  simp only [channelsUp, Bool.and_eq_true] at h
  obtain ⟨r, r', er, er', r0, hr, r1⟩ :=
    srgb_le_of_outsideDip powf hu hm hx hc.1.1 hd.1.1 h.1.1
  obtain ⟨g, g', eg, eg', g0, hg, g1⟩ :=
    srgb_le_of_outsideDip powf hu hm hx hc.1.2 hd.1.2 h.1.2
  obtain ⟨b, b', eb, eb', b0, hb, b1⟩ := srgb_le_of_outsideDip powf hu hm hx hc.2 hd.2 h.2
  obtain ⟨l1, _, _⟩ := luminance_of_srgb powf c er eg eb r0 (hr.trans r1) g0 (hg.trans g1)
    b0 (hb.trans b1)
  obtain ⟨l2, _, _⟩ := luminance_of_srgb powf d er' eg' eb' (r0.trans hr) r1 (g0.trans hg) g1
    (b0.trans hb) b1
  rw [l1, l2]
  have k1 := rnd_nonneg (show (0 : ℚ) ≤ 2126 / 10000 by norm_num)
  have k2 := rnd_nonneg (show (0 : ℚ) ≤ 722 / 10000 by norm_num)
  have k3 := rnd_nonneg (show (0 : ℚ) ≤ 7152 / 10000 by norm_num)
  have p1 := rnd_mono (mul_le_mul_of_nonneg_right hr k1)
  have p2 := rnd_mono (mul_le_mul_of_nonneg_right hb k2)
  have p3 := rnd_mono (mul_le_mul_of_nonneg_right hg k3)
  have s1 := rnd_mono (add_le_add p1 p2)
  have s2 := rnd_mono (add_le_add s1 p3)
  simp [fle, s2]

/-! ## The mathematical power meets the assumptions made on `powf` -/

theorem root5Aux_lt (n : ℕ) :
    ∀ i r : ℕ, n < (r + 2 ^ i) ^ 5 → n < (root5Aux n i r + 1) ^ 5 := by
  intro i
  induction i with
  | zero => intro r h; simpa [root5Aux] using h
  | succ i ih =>
    intro r h
    unfold root5Aux
    split_ifs with hc
    · apply ih
      have e : r + 2 ^ i + 2 ^ i = r + 2 ^ (i + 1) := by rw [pow_succ]; ring
      rw [e]; exact h
    · exact ih _ (not_le.mp hc)

theorem lt_root5_succ_pow (n : ℕ) : n < (root5 n + 1) ^ 5 := by
  apply root5Aux_lt
  rw [zero_add, ← pow_mul]
  exact lt_of_lt_of_le Nat.lt_log2_self (Nat.pow_le_pow_right (by norm_num) (by omega))

theorem le_root5 {m n : ℕ} (h : m ^ 5 ≤ n) : m ≤ root5 n := by
  by_contra hcon
  have h1 : root5 n + 1 ≤ m := by omega
  have h2 : (root5 n + 1) ^ 5 ≤ m ^ 5 := Nat.pow_le_pow_left h1 5
  have h3 := lt_root5_succ_pow n
  omega

theorem root5_mono {m n : ℕ} (h : m ≤ n) : root5 m ≤ root5 n :=
  le_root5 ((root5_pow_le m).trans h)

theorem powfIdeal_eq {x : ℚ} (hx : 0 ≤ x) (hx1 : x ≤ 1) (y : Fp) :
    powfIdeal (Fp.fin x) y =
      Fp.fin (roundQ 24 (-126) ((root5 ⌊x ^ 12 * (2 ^ 160) ^ 5⌋₊ : ℚ) / 2 ^ 160)) ∧
    0 ≤ (root5 ⌊x ^ 12 * (2 ^ 160) ^ 5⌋₊ : ℚ) / 2 ^ 160 ∧
    (root5 ⌊x ^ 12 * (2 ^ 160) ^ 5⌋₊ : ℚ) / 2 ^ 160 ≤ 1 := by
  have hn : 0 ≤ x ^ 12 * (2 ^ 160) ^ 5 := by positivity
  have hx12 : x ^ 12 ≤ 1 := pow_le_one₀ hx hx1
  have h1 : ((root5 ⌊x ^ 12 * (2 ^ 160) ^ 5⌋₊ : ℕ) : ℚ) ^ 5 ≤ x ^ 12 * (2 ^ 160) ^ 5 := by
    have h2 : ((root5 ⌊x ^ 12 * (2 ^ 160) ^ 5⌋₊ : ℕ) : ℚ) ^ 5 ≤
        (⌊x ^ 12 * (2 ^ 160) ^ 5⌋₊ : ℚ) := by
      rw [← Nat.cast_pow]
      exact Nat.cast_le.mpr (root5_pow_le _)
    exact h2.trans (Nat.floor_le hn)
  have hq0 : (0 : ℚ) ≤ (root5 ⌊x ^ 12 * (2 ^ 160) ^ 5⌋₊ : ℚ) / 2 ^ 160 := by positivity
  have hq5 : ((root5 ⌊x ^ 12 * (2 ^ 160) ^ 5⌋₊ : ℚ) / 2 ^ 160) ^ 5 ≤ 1 ^ 5 := by
    rw [div_pow, one_pow, div_le_one (by positivity)]
    exact h1.trans (by nlinarith [show (0 : ℚ) ≤ (2 ^ 160) ^ 5 by positivity])
  have hq : (root5 ⌊x ^ 12 * (2 ^ 160) ^ 5⌋₊ : ℚ) / 2 ^ 160 ≤ 1 :=
    le_of_pow_le_pow_left₀ (by norm_num) (by norm_num) hq5
  have hb : |(root5 ⌊x ^ 12 * (2 ^ 160) ^ 5⌋₊ : ℚ) / 2 ^ 160| ≤ 2 ^ (127 : ℤ) := by
    rw [abs_of_nonneg hq0]
    exact hq.trans (by norm_num)
  refine ⟨?_, hq0, hq⟩
  show (if 0 ≤ x then flt ((root5 ⌊x ^ 12 * (2 ^ 160) ^ 5⌋₊ : ℚ) / 2 ^ 160) else Fp.nan) = _
  rw [if_pos hx, flt_eq_fin hb]

theorem powfIdeal_unit : PowfUnit powfIdeal := by
  intro x _ h0 h1
  obtain ⟨e, q0, q1⟩ := powfIdeal_eq h0.le h1 (toFloat (dbl (24 / 10)))
  have l0 := roundQ_mono 24 (-126) (by norm_num) q0
  have l1 := roundQ_mono 24 (-126) (by norm_num) q1
  have r0 : roundQ 24 (-126) 0 = 0 := by simp [roundQ, roundMag_zero]
  have r1 : roundQ 24 (-126) 1 = 1 := by
    simpa using roundQ_zpow 24 (-126) (k := 0) (by norm_num) (by norm_num)
  rw [r0] at l0
  rw [r1] at l1
  rw [e]
  simp [inUnit, l0, l1]

theorem powfIdeal_mono : PowfMono powfIdeal := by
  intro x y _ _ h0 hxy h1
  obtain ⟨e1, _, _⟩ := powfIdeal_eq h0.le (hxy.trans h1) (toFloat (dbl (24 / 10)))
  obtain ⟨e2, _, _⟩ := powfIdeal_eq (h0.le.trans hxy) h1 (toFloat (dbl (24 / 10)))
  rw [e1, e2]
  have hp : x ^ 12 * (2 ^ 160) ^ 5 ≤ y ^ 12 * (2 ^ 160) ^ 5 :=
    mul_le_mul_of_nonneg_right (pow_le_pow_left₀ h0.le hxy 12) (by positivity)
  have hr : (root5 ⌊x ^ 12 * (2 ^ 160) ^ 5⌋₊ : ℚ) ≤ (root5 ⌊y ^ 12 * (2 ^ 160) ^ 5⌋₊ : ℚ) :=
    Nat.cast_le.mpr (root5_mono (Nat.floor_mono hp))
  have hq : (root5 ⌊x ^ 12 * (2 ^ 160) ^ 5⌋₊ : ℚ) / 2 ^ 160 ≤
      (root5 ⌊y ^ 12 * (2 ^ 160) ^ 5⌋₊ : ℚ) / 2 ^ 160 :=
    div_le_div_of_nonneg_right hr (by positivity)
  simp [fle, roundQ_mono 24 (-126) (by norm_num) hq]

theorem le_powfIdeal {x v : ℚ} (m : ℕ) (hx : 0 ≤ x) (hx1 : x ≤ 1) (hm : v = (m : ℚ) / 2 ^ 160)
    (hrep : flt v = Fp.fin v) (h : v ^ 5 ≤ x ^ 12) (y : Fp) :
    ∃ r, powfIdeal (Fp.fin x) y = Fp.fin r ∧ v ≤ r := by
  obtain ⟨e, _, q1⟩ := powfIdeal_eq hx hx1 y
  have hn : 0 ≤ x ^ 12 * (2 ^ 160) ^ 5 := by positivity
  have h5 : ((m ^ 5 : ℕ) : ℚ) ≤ x ^ 12 * (2 ^ 160) ^ 5 := by
    have e5 : ((m ^ 5 : ℕ) : ℚ) = v ^ 5 * (2 ^ 160) ^ 5 := by
      rw [hm, div_pow, div_mul_cancel₀ _ (by positivity)]
      push_cast
      ring
    rw [e5]
    exact mul_le_mul_of_nonneg_right h (by positivity)
  have hle : m ≤ root5 ⌊x ^ 12 * (2 ^ 160) ^ 5⌋₊ := le_root5 (Nat.le_floor h5)
  have hq : v ≤ (root5 ⌊x ^ 12 * (2 ^ 160) ^ 5⌋₊ : ℚ) / 2 ^ 160 := by
    rw [hm]
    exact div_le_div_of_nonneg_right (Nat.cast_le.mpr hle) (by positivity)
  have hv0 : 0 ≤ v := by rw [hm]; positivity
  have hbv : |v| ≤ 2 ^ (127 : ℤ) := by
    rw [abs_of_nonneg hv0]
    exact (hq.trans q1).trans (by norm_num)
  have hrv : roundQ 24 (-126) v = v := by
    rw [flt_eq_fin hbv] at hrep
    exact Fp.fin.inj hrep
  have l := roundQ_mono 24 (-126) (by norm_num) hq
  rw [hrv] at l
  exact ⟨_, e, l⟩

theorem flt_dip_lower : flt (1632221 / 536870912) = Fp.fin (1632221 / 536870912) := by
  apply flt_eq (-9) (-32) 13057768 <;> norm_num [abs_lt]

theorem powfIdeal_cross : PowfCross powfIdeal := by
  rw [powfCross_iff]
  obtain ⟨e4, _, _⟩ := get_srgb_power powfIdeal
    (show (0 : ℚ) ≤ rnd (3929 / 100000) from rnd_nonneg (by norm_num))
    (rnd_le_one (by norm_num)) rnd_3928_lt_3929
  rw [e4, rnd_3928, rnd_1292, rnd_3929, rnd_55, rnd_1055, rnd_linear_top, rnd_dip_sum,
    rnd_dip_base, flt_dip_base]
  obtain ⟨r, er, hr⟩ := le_powfIdeal (x := 5997815 / 67108864) (v := 1632221 / 536870912)
    (1632221 * 2 ^ 131) (by norm_num) (by norm_num) (by norm_num) flt_dip_lower (by norm_num)
    (toFloat (dbl (24 / 10)))
  rw [er]
  have : (7010333854637299 / 2305843009213693952 : ℚ) ≤ r := le_trans (by norm_num) hr
  simp [fle, this]

/-! ## The claims -/

/-- C1: `get_best_foreground_color` returns black or white, nothing else. -/
theorem best_foreground_black_or_white (powf : Fp → Fp → Fp) (bg : GdkRGBA) :
    get_best_foreground_color powf bg = black ∨ get_best_foreground_color powf bg = white := by
  unfold get_best_foreground_color get_most_readable_color
  split
  · exact Or.inl rfl
  · exact Or.inr rfl

/-- C2: `get_most_readable_color` returns the first candidate when its contrast level is
strictly greater than that of the second, and the second candidate otherwise, a tie included. -/
theorem most_readable_strictly_greater (powf : Fp → Fp → Fp) (bg a b : GdkRGBA) :
    (fgt (get_contrast_level powf bg a) (get_contrast_level powf bg b) = true →
        get_most_readable_color powf bg a b = a) ∧
    (fgt (get_contrast_level powf bg a) (get_contrast_level powf bg b) = false →
        get_most_readable_color powf bg a b = b) ∧
    (get_contrast_level powf bg a = get_contrast_level powf bg b →
        get_most_readable_color powf bg a b = b) ∧
    (∀ x y : ℚ, get_contrast_level powf bg a = Fp.fin x →
        get_contrast_level powf bg b = Fp.fin y →
        (y < x → get_most_readable_color powf bg a b = a) ∧
        (x ≤ y → get_most_readable_color powf bg a b = b)) := by
  refine ⟨fun h => ?_, fun h => ?_, fun h => ?_, fun x y hx hy => ⟨fun h => ?_, fun h => ?_⟩⟩
  · simp [get_most_readable_color, h]
  · simp [get_most_readable_color, h]
  · simp [get_most_readable_color, h, fgt_irrefl]
  · simp [get_most_readable_color, hx, hy, fgt, h]
  · simp [get_most_readable_color, hx, hy, fgt, not_lt.mpr h]

theorem most_readable_strictly_greater_witness :
    get_contrast_level powfSquare white black = get_contrast_level powfSquare white black ∧
      get_most_readable_color powfSquare white black black = black :=
  ⟨rfl, (most_readable_strictly_greater powfSquare white black black).2.2.1 rfl⟩

/-- C3: the contrast level is symmetric in its two colours. -/
theorem contrast_level_symm (powf : Fp → Fp → Fp) (a b : GdkRGBA) :
    get_contrast_level powf a b = get_contrast_level powf b a :=
  contrast_symm powf a b

/-- C4: for colours with channels in [0, 1] the contrast level is a finite number between 1
and 21. -/
theorem contrast_level_range (powf : Fp → Fp → Fp) (hpow : PowfUnit powf) (a b : GdkRGBA)
    (ha : normalized a = true) (hb : normalized b = true) :
    ∃ q, get_contrast_level powf a b = Fp.fin q ∧ 1 ≤ q ∧ q ≤ 21 :=
  contrast_range_aux powf hpow a b ha hb

theorem contrast_level_range_witness :
    PowfUnit powfSquare ∧
    normalized ⟨Fp.fin (1 / 2), Fp.fin (1 / 4), Fp.fin 1, Fp.fin 1⟩ = true ∧
    normalized ⟨Fp.fin (1 / 64), Fp.fin 0, Fp.fin (3 / 4), Fp.fin 1⟩ = true ∧
    ∃ q, get_contrast_level powfSquare ⟨Fp.fin (1 / 2), Fp.fin (1 / 4), Fp.fin 1, Fp.fin 1⟩
        ⟨Fp.fin (1 / 64), Fp.fin 0, Fp.fin (3 / 4), Fp.fin 1⟩ = Fp.fin q ∧ 1 ≤ q ∧ q ≤ 21 :=
  ⟨powfSquare_unit, by simp [normalized, inUnit]; norm_num,
    by simp [normalized, inUnit]; norm_num,
    contrast_level_range powfSquare powfSquare_unit _ _ (by simp [normalized, inUnit]; norm_num)
      (by simp [normalized, inUnit]; norm_num)⟩

/-- C5: a colour with channels in [0, 1] has contrast level 1 against itself, and against
every colour of the same relative luminance. -/
theorem contrast_level_self (powf : Fp → Fp → Fp) (hpow : PowfUnit powf) (a b : GdkRGBA)
    (ha : normalized a = true) :
    get_contrast_level powf a a = Fp.fin 1 ∧
    (get_relative_luminance powf a = get_relative_luminance powf b →
      get_contrast_level powf a b = Fp.fin 1) :=
  ⟨contrast_equal_luminance powf hpow a a ha rfl,
    fun h => contrast_equal_luminance powf hpow a b ha h⟩

theorem contrast_level_self_witness :
    PowfUnit powfSquare ∧
    normalized ⟨Fp.fin (1 / 2), Fp.fin (1 / 4), Fp.fin 1, Fp.fin 1⟩ = true ∧
    get_contrast_level powfSquare ⟨Fp.fin (1 / 2), Fp.fin (1 / 4), Fp.fin 1, Fp.fin 1⟩
      ⟨Fp.fin (1 / 2), Fp.fin (1 / 4), Fp.fin 1, Fp.fin 1⟩ = Fp.fin 1 ∧
    get_contrast_level powfSquare ⟨Fp.fin (1 / 2), Fp.fin (1 / 4), Fp.fin 1, Fp.fin 1⟩
      ⟨Fp.fin (1 / 2), Fp.fin (1 / 4), Fp.fin 1, Fp.fin 0⟩ = Fp.fin 1 :=
  ⟨powfSquare_unit, by simp [normalized, inUnit]; norm_num,
    (contrast_level_self powfSquare powfSquare_unit _
      ⟨Fp.fin (1 / 2), Fp.fin (1 / 4), Fp.fin 1, Fp.fin 1⟩
      (by simp [normalized, inUnit]; norm_num)).1,
    (contrast_level_self powfSquare powfSquare_unit
      ⟨Fp.fin (1 / 2), Fp.fin (1 / 4), Fp.fin 1, Fp.fin 1⟩
      ⟨Fp.fin (1 / 2), Fp.fin (1 / 4), Fp.fin 1, Fp.fin 0⟩
      (by simp [normalized, inUnit]; norm_num)).2 rfl⟩

/-- C6: the contrast level of white against black is exactly 21. -/
theorem contrast_white_black_eq_21 (powf : Fp → Fp → Fp) (h : PowfOne powf) :
    get_contrast_level powf white black = Fp.fin 21 :=
  contrast_white_black powf h

theorem contrast_white_black_eq_21_witness :
    PowfOne powfSquare ∧ get_contrast_level powfSquare white black = Fp.fin 21 :=
  ⟨powfSquare_one, contrast_white_black_eq_21 powfSquare powfSquare_one⟩

/-- C7: the relative luminance of black is 0 and that of white is 1. -/
theorem luminance_black_white (powf : Fp → Fp → Fp) (h : PowfOne powf) :
    get_relative_luminance powf black = Fp.fin 0 ∧
      get_relative_luminance powf white = Fp.fin 1 :=
  ⟨luminance_black powf, luminance_white powf h⟩

theorem luminance_black_white_witness :
    PowfOne powfSquare ∧ get_relative_luminance powfSquare black = Fp.fin 0 ∧
      get_relative_luminance powfSquare white = Fp.fin 1 :=
  ⟨powfSquare_one, luminance_black_white powfSquare powfSquare_one⟩

/-- C8: on a white background the more readable of black and white is black, on a black
background it is white; `get_best_foreground_color` returns the same. -/
theorem most_readable_extremes (powf : Fp → Fp → Fp) (h : PowfOne powf) :
    get_most_readable_color powf white black white = black ∧
    get_most_readable_color powf black black white = white ∧
    get_best_foreground_color powf white = black ∧
    get_best_foreground_color powf black = white := by
  have h1 : get_most_readable_color powf white black white = black := by
    unfold get_most_readable_color
    rw [contrast_white_black powf h, contrast_white_white powf h]
    have : fgt (Fp.fin 21) (Fp.fin 1) = true := by simp [fgt]
    rw [this]; rfl
  have h2 : get_most_readable_color powf black black white = white := by
    unfold get_most_readable_color
    rw [contrast_black_black powf, contrast_black_white powf h]
    have : fgt (Fp.fin 1) (Fp.fin 21) = false := by simp [fgt]
    rw [this]; rfl
  exact ⟨h1, h2, h1, h2⟩

theorem most_readable_extremes_witness :
    PowfOne powfSquare ∧ get_best_foreground_color powfSquare white = black ∧
      get_best_foreground_color powfSquare black = white :=
  ⟨powfSquare_one, (most_readable_extremes powfSquare powfSquare_one).2.2⟩

/-- C9: `get_srgb` divides by 12.92 when the channel is at most 0.03928 and otherwise applies
`powf` with exponent 2.4 to `(channel + 0.055) / 1.055`; on [0, 1] the base of the power is a
finite positive number, at most 1, and the result lies in [0, 1]. -/
theorem get_srgb_contract (powf : Fp → Fp → Fp) :
    (∀ c, fle c (dbl (3928 / 100000)) = true →
      get_srgb powf c = fdiv c (dbl (1292 / 100))) ∧
    (∀ c, fle c (dbl (3928 / 100000)) = false →
      get_srgb powf c =
        powf (toFloat (fdiv (fadd c (dbl (55 / 1000))) (dbl (1055 / 1000))))
          (toFloat (dbl (24 / 10)))) ∧
    (∀ q : ℚ, 0 ≤ q → q ≤ 1 →
      (fle (Fp.fin q) (dbl (3928 / 100000)) = true →
        get_srgb powf (Fp.fin q) = Fp.fin (rnd (q / rnd (1292 / 100)))) ∧
      (fle (Fp.fin q) (dbl (3928 / 100000)) = false →
        ∃ x, toFloat (fdiv (fadd (Fp.fin q) (dbl (55 / 1000))) (dbl (1055 / 1000))) = Fp.fin x ∧
          0 < x ∧ x ≤ 1)) ∧
    (PowfUnit powf → ∀ c, inUnit c = true → inUnit (get_srgb powf c) = true) := by
  refine ⟨fun c h => by simp [get_srgb, h], fun c h => by simp [get_srgb, h],
    fun q h0 h1 => ⟨fun h => ?_, fun h => ?_⟩, fun hpow c hc => ?_⟩
  · rw [dbl_small (q := 3928 / 100000) (by norm_num) (by norm_num)] at h
    have hq : q ≤ rnd (3928 / 100000) := by simpa [fle] using h
    have hd := rnd_1292_ge
    rw [get_srgb_linear powf hq]
    apply dbl_small (div_nonneg h0 (by linarith))
    rw [div_le_iff₀ (by linarith)]
    nlinarith
  · rw [dbl_small (q := 3928 / 100000) (by norm_num) (by norm_num)] at h
    have hq : rnd (3928 / 100000) < q := by simpa [fle] using h
    obtain ⟨e, hlo, hhi⟩ := srgb_base h0 h1
    obtain ⟨x, hx, _, hx0, hx1⟩ := flt_base hlo hhi
    exact ⟨x, by rw [e]; exact hx, hx0, hx1⟩
  · obtain ⟨q, rfl, h0, h1⟩ := inUnit_iff.mp hc
    obtain ⟨s, es, s0, s1⟩ := get_srgb_unit powf hpow h0 h1
    exact inUnit_iff.mpr ⟨s, es, s0, s1⟩

theorem get_srgb_contract_witness :
    PowfUnit powfSquare ∧ inUnit (Fp.fin (1 / 2)) = true ∧
      inUnit (get_srgb powfSquare (Fp.fin (1 / 2))) = true :=
  ⟨powfSquare_unit, by simp [inUnit]; norm_num,
    (get_srgb_contract powfSquare).2.2.2 powfSquare_unit _ (by simp [inUnit]; norm_num)⟩

/-- C10, as stated, fails: at the colour (1/32, 1/32, 1/64), whose channels are all on the
linear branch of `get_srgb` (no call of `powf`), the sum in the order red, blue, green and the
sum in the order red, green, blue round to different values, one unit in the last place
apart. -/
theorem luminance_order_counterexample :
    get_relative_luminance powfSquare
        ⟨Fp.fin (1 / 32), Fp.fin (1 / 32), Fp.fin (1 / 64), Fp.fin 1⟩ =
      Fp.fin (671984470715545 / 288230376151711744) ∧
    relativeLuminance_spec powfSquare
        ⟨Fp.fin (1 / 32), Fp.fin (1 / 32), Fp.fin (1 / 64), Fp.fin 1⟩ =
      Fp.fin (5375875765724361 / 2305843009213693952) ∧
    get_relative_luminance powfSquare
        ⟨Fp.fin (1 / 32), Fp.fin (1 / 32), Fp.fin (1 / 64), Fp.fin 1⟩ ≠
      relativeLuminance_spec powfSquare
        ⟨Fp.fin (1 / 32), Fp.fin (1 / 32), Fp.fin (1 / 64), Fp.fin 1⟩ := by
  refine ⟨luminance_dark powfSquare, luminance_spec_dark powfSquare, ?_⟩
  rw [luminance_dark, luminance_spec_dark]
  intro h
  have := Fp.fin.inj h
  norm_num at this

/-- C10, amended: `get_relative_luminance` pairs red with 0.2126, green with 0.7152 and blue
with 0.0722 and adds the three products in the order red, blue, green; for channels in [0, 1]
its value and the value of the reference sum, in the order red, green, blue, are finite and
differ by at most 2^-52. -/
theorem luminance_reference_near (powf : Fp → Fp → Fp) (hpow : PowfUnit powf) (c : GdkRGBA)
    (hc : normalized c = true) :
    get_relative_luminance powf c =
      fadd
        (fadd (fmul (dbl (2126 / 10000)) (get_srgb powf c.red))
          (fmul (dbl (722 / 10000)) (get_srgb powf c.blue)))
        (fmul (dbl (7152 / 10000)) (get_srgb powf c.green)) ∧
    ∃ x y, get_relative_luminance powf c = Fp.fin x ∧
      relativeLuminance_spec powf c = Fp.fin y ∧ |x - y| ≤ 1 / 2 ^ 52 :=
  ⟨luminance_reorder powf c, by
    obtain ⟨x, y, hx, hy, h⟩ := luminance_orders_near powf hpow c hc
    exact ⟨x, y, hx, hy, h.trans (by norm_num)⟩⟩

theorem luminance_reference_near_witness :
    PowfUnit powfSquare ∧
    normalized ⟨Fp.fin (1 / 2), Fp.fin (1 / 4), Fp.fin 1, Fp.fin 1⟩ = true ∧
    ∃ x y, get_relative_luminance powfSquare ⟨Fp.fin (1 / 2), Fp.fin (1 / 4), Fp.fin 1, Fp.fin 1⟩
        = Fp.fin x ∧
      relativeLuminance_spec powfSquare ⟨Fp.fin (1 / 2), Fp.fin (1 / 4), Fp.fin 1, Fp.fin 1⟩
        = Fp.fin y ∧ |x - y| ≤ 1 / 2 ^ 52 :=
  ⟨powfSquare_unit, by simp [normalized, inUnit]; norm_num,
    (luminance_reference_near powfSquare powfSquare_unit _
      (by simp [normalized, inUnit]; norm_num)).2⟩

/-- C11: on the mid-gray background (0.5, 0.5, 0.5) the contrast level of black is larger than
that of white, and `get_most_readable_color` returns black, the candidate of larger level. -/
theorem gray_most_readable (powf : Fp → Fp → Fp) (h1 : PowfOne powf) (hh : PowfHalf powf) :
    ∃ x y, get_contrast_level powf gray black = Fp.fin x ∧
      get_contrast_level powf gray white = Fp.fin y ∧ y < x ∧
      get_most_readable_color powf gray black white = black :=
  contrast_gray powf h1 hh

theorem gray_most_readable_witness :
    PowfOne powfSquare ∧ PowfHalf powfSquare ∧
    ∃ x y, get_contrast_level powfSquare gray black = Fp.fin x ∧
      get_contrast_level powfSquare gray white = Fp.fin y ∧ y < x ∧
      get_most_readable_color powfSquare gray black white = black :=
  ⟨powfSquare_one, powfSquare_half,
    gray_most_readable powfSquare powfSquare_one powfSquare_half⟩

/-- C12, as stated, fails: for the background (1/32, 1/32, 1/64) the two contrast levels are
the doubles 1.046628289473684 and 20.0644299520704, whose product is not 21. -/
theorem contrast_product_counterexample :
    get_contrast_level powfSquare
        ⟨Fp.fin (1 / 32), Fp.fin (1 / 32), Fp.fin (1 / 64), Fp.fin 1⟩ black =
      Fp.fin (4713594774469103 / 4503599627370496) ∧
    get_contrast_level powfSquare
        ⟨Fp.fin (1 / 32), Fp.fin (1 / 32), Fp.fin (1 / 64), Fp.fin 1⟩ white =
      Fp.fin (5647634953471605 / 281474976710656) ∧
    (4713594774469103 / 4503599627370496 : ℚ) * (5647634953471605 / 281474976710656) ≠ 21 :=
  ⟨(contrast_dark powfSquare powfSquare_one).1, (contrast_dark powfSquare powfSquare_one).2,
    by norm_num⟩

/-- C12, amended: for a background with channels in [0, 1] the contrast levels against black
and against white are finite and their product is 21 up to rounding, within 2^-47; the colour
chosen by `get_best_foreground_color` has the larger of the two levels, whose square is at
least 21 - 2^-47, so that the level is at least 4.58, above the threshold 4.5. -/
theorem best_foreground_contrast (powf : Fp → Fp → Fp) (h1 : PowfOne powf) (hu : PowfUnit powf)
    (bg : GdkRGBA) (hbg : normalized bg = true) :
    ∃ x y z, get_contrast_level powf bg black = Fp.fin x ∧
      get_contrast_level powf bg white = Fp.fin y ∧ |x * y - 21| ≤ 1 / 2 ^ 47 ∧
      get_contrast_level powf bg (get_best_foreground_color powf bg) = Fp.fin z ∧
      z = max x y ∧ 21 - 1 / 2 ^ 47 ≤ z * z ∧ 458 / 100 ≤ z :=
  best_contrast_aux powf h1 hu bg hbg

theorem best_foreground_contrast_witness :
    PowfOne powfSquare ∧ PowfUnit powfSquare ∧ normalized gray = true ∧
    ∃ x y z, get_contrast_level powfSquare gray black = Fp.fin x ∧
      get_contrast_level powfSquare gray white = Fp.fin y ∧ |x * y - 21| ≤ 1 / 2 ^ 47 ∧
      get_contrast_level powfSquare gray (get_best_foreground_color powfSquare gray) =
        Fp.fin z ∧
      z = max x y ∧ 21 - 1 / 2 ^ 47 ≤ z * z ∧ 458 / 100 ≤ z :=
  ⟨powfSquare_one, powfSquare_unit, by simp [normalized, inUnit, gray]; norm_num,
    best_foreground_contrast powfSquare powfSquare_one powfSquare_unit gray
      (by simp [normalized, inUnit, gray]; norm_num)⟩

/-- C13, as stated, fails across the threshold: with the mathematical power for `powf`, the
channel 1287/32768 = 0.039276 (linear branch) is less than the channel 5149/131072 = 0.039284
(power branch), both in [0, 1], and yet `get_srgb` of the first, 0.0030399, is greater than
`get_srgb` of the second, 0.0030398; the relative luminance of the colour with the first as
red channel is greater as well. -/
theorem get_srgb_threshold_counterexample :
    fle (Fp.fin (1287 / 32768)) (Fp.fin (5149 / 131072)) = true ∧
    inUnit (Fp.fin (1287 / 32768)) = true ∧ inUnit (Fp.fin (5149 / 131072)) = true ∧
    fgt (get_srgb powfIdeal (Fp.fin (1287 / 32768)))
      (get_srgb powfIdeal (Fp.fin (5149 / 131072))) = true ∧
    fgt
      (get_relative_luminance powfIdeal ⟨Fp.fin (1287 / 32768), Fp.fin 0, Fp.fin 0, Fp.fin 1⟩)
      (get_relative_luminance powfIdeal ⟨Fp.fin (5149 / 131072), Fp.fin 0, Fp.fin 0, Fp.fin 1⟩)
      = true :=
  ⟨by simp [fle]; norm_num, by simp [inUnit]; norm_num, by simp [inUnit]; norm_num,
    (get_srgb_drop powfIdeal powfIdeal_above).1, (get_srgb_drop powfIdeal powfIdeal_above).2⟩

/-- C13, amended: for channel values c1 <= c2 in [0, 1], `get_srgb` of c1 is at most `get_srgb`
of c2, the threshold crossed or not, except when c1 <= 0.03928 < c2 < 0.03929.  In the linear
branch nothing is assumed of `powf`; in the power branch `powf` is assumed not to decrease in
its base; across the threshold, with c2 >= 0.03929, it is assumed besides that its value for
the channel 0.03929 is at least 0.03928 / 12.92.  With channels in [0, 1] that increase in
this way, the relative luminance of a colour does not decrease. -/
theorem get_srgb_mono_outside_dip (powf : Fp → Fp → Fp) :
    (∀ x y, inUnit x = true → fle x y = true → fle y (dbl (3928 / 100000)) = true →
      fle (get_srgb powf x) (get_srgb powf y) = true) ∧
    (PowfMono powf → ∀ x y, inUnit x = true → inUnit y = true → fle x y = true →
      fle x (dbl (3928 / 100000)) = false →
      fle (get_srgb powf x) (get_srgb powf y) = true) ∧
    (PowfMono powf → PowfCross powf → ∀ x y, inUnit x = true → inUnit y = true →
      outsideDip x y = true → fle (get_srgb powf x) (get_srgb powf y) = true) ∧
    (PowfMono powf → PowfCross powf → PowfUnit powf → ∀ c d, normalized c = true →
      normalized d = true → channelsUp c d = true →
      fle (get_relative_luminance powf c) (get_relative_luminance powf d) = true) := by
  refine ⟨fun x y hx hxy hy => ?_, fun hm x y hx hy hxy hs => ?_,
    fun hm hc x y hx hy h => get_srgb_mono_aux powf hm hc hx hy h,
    fun hm hc hu c d hn hn' h => luminance_mono_aux powf hu hm hc c d hn hn' h⟩
  · obtain ⟨p, rfl, p0, _⟩ := inUnit_iff.mp hx
    cases y with
    | nan => simp [fle] at hxy
    | inf n =>
      rw [dbl_small (q := 3928 / 100000) (by norm_num) (by norm_num)] at hy
      cases n <;> simp [fle] at hxy hy
    | fin q =>
      rw [fle_threshold] at hy
      have hq : q ≤ rnd (3928 / 100000) := by simpa using hy
      have hpq : p ≤ q := by simpa [fle] using hxy
      obtain ⟨e1, e2, hle, _⟩ := get_srgb_mono_linear powf p0 hpq hq
      rw [e1, e2]
      simp [fle, hle]
  · obtain ⟨p, rfl, p0, _⟩ := inUnit_iff.mp hx
    obtain ⟨q, rfl, _, q1⟩ := inUnit_iff.mp hy
    rw [fle_threshold] at hs
    have hp : rnd (3928 / 100000) < p := by simpa using hs
    have hpq : p ≤ q := by simpa [fle] using hxy
    exact get_srgb_mono_power powf hm p0 hpq q1 hp

theorem get_srgb_mono_outside_dip_witness :
    PowfMono powfIdeal ∧ PowfCross powfIdeal ∧ PowfUnit powfIdeal ∧
    inUnit (Fp.fin (1 / 32)) = true ∧ inUnit (Fp.fin (1 / 16)) = true ∧
    outsideDip (Fp.fin (1 / 32)) (Fp.fin (1 / 16)) = true ∧
    fle (get_srgb powfIdeal (Fp.fin (1 / 32))) (get_srgb powfIdeal (Fp.fin (1 / 16))) = true ∧
    normalized black = true ∧ normalized white = true ∧ channelsUp black white = true ∧
    fle (get_relative_luminance powfIdeal black) (get_relative_luminance powfIdeal white)
      = true :=
  have hs : outsideDip (Fp.fin (1 / 32)) (Fp.fin (1 / 16)) = true := by
    unfold outsideDip
    rw [fle_threshold, fle_threshold, fle_dip_end, rnd_3928, rnd_3929]
    simp [fle]
    norm_num
  have hc : channelsUp black white = true := by
    unfold channelsUp outsideDip black white
    simp only [fle_threshold, fle_dip_end, rnd_3928, rnd_3929]
    simp [fle]
    norm_num
  ⟨powfIdeal_mono, powfIdeal_cross, powfIdeal_unit, by simp [inUnit]; norm_num,
    by simp [inUnit]; norm_num, hs,
    (get_srgb_mono_outside_dip powfIdeal).2.2.1 powfIdeal_mono powfIdeal_cross _ _
      (by simp [inUnit]; norm_num) (by simp [inUnit]; norm_num) hs,
    by simp [normalized, inUnit, black], by simp [normalized, inUnit, white], hc,
    (get_srgb_mono_outside_dip powfIdeal).2.2.2 powfIdeal_mono powfIdeal_cross
      powfIdeal_unit black white (by simp [normalized, inUnit, black])
      (by simp [normalized, inUnit, white]) hc⟩

end Evince
